import Mathlib

/-!
# libpostal-rest: the HTTP gateway of `main.go`

A shallow embedding of `main.go` (bearer-token middleware, the three route
handlers, the route table and the serving goroutine), followed by the
properties proved about it.

Conventions of the embedding:

* a Go `string` / `[]byte` is the list of its bytes, a `List (Fin 256)`; it
  need not be valid UTF-8;
* what is written to the client is a `List Char`: `http.Error` and
  `HealthHandler` write ASCII, and `json.Marshal` only emits valid UTF-8, a
  byte that is not part of valid UTF-8 leaving as the escape `\ufffd`;
* library code that `main.go` calls (`crypto/subtle`, `unicode/utf8`,
  `net/http`, `gorilla/mux`, `encoding/json`) is written out from its
  documented behaviour; the environment variable `API_KEY`, the syntax check
  of `encoding/json` and the two operations of gopostal are parameters
  (`Env`).
-/

namespace LibpostalRest

/-- A byte. -/
abbrev Byte := Fin 256

/-- A Go `string` or `[]byte` seen as its bytes. -/
abbrev Bytes := List Byte

/-- Unicode text. -/
abbrev Text := List Char

/-! ## unicode/utf8 and unicode/utf16 -/

namespace utf8

/-- The constant `utf8.RuneError`, U+FFFD. -/
def RuneError : Nat := 0xFFFD

/-- The function `utf8.DecodeRune(p)`: the first code point of `p` and the
number of bytes it takes, `(RuneError, 1)` when `p` does not start with a
well-formed encoding and `(RuneError, 0)` when `p` is empty. The cases on
the first byte are those of the table `first`, the bounds on the second byte
those of `acceptRanges`; masks and shifts are written with `%` and `*`. -/
def DecodeRune : Bytes → Nat × Nat
  | [] => (RuneError, 0)
  | s0 :: t =>
    if s0.val < 0x80 then (s0.val, 1)
    else if s0.val < 0xC2 ∨ 0xF4 < s0.val then (RuneError, 1)
    else
      let sz := if s0.val < 0xE0 then 2 else if s0.val < 0xF0 then 3 else 4
      let lo := if s0.val = 0xE0 then 0xA0 else if s0.val = 0xF0 then 0x90 else 0x80
      let hi := if s0.val = 0xED then 0x9F else if s0.val = 0xF4 then 0x8F else 0xBF
      if t.length + 1 < sz then (RuneError, 1)
      else
        match t with
        | [] => (RuneError, 1)
        | s1 :: t1 =>
          if s1.val < lo ∨ hi < s1.val then (RuneError, 1)
          else if sz ≤ 2 then (s0.val % 32 * 64 + s1.val % 64, 2)
          else
            match t1 with
            | [] => (RuneError, 1)
            | s2 :: t2 =>
              if s2.val < 0x80 ∨ 0xBF < s2.val then (RuneError, 1)
              else if sz ≤ 3 then (s0.val % 16 * 4096 + s1.val % 64 * 64 + s2.val % 64, 3)
              else
                match t2 with
                | [] => (RuneError, 1)
                | s3 :: _ =>
                  if s3.val < 0x80 ∨ 0xBF < s3.val then (RuneError, 1)
                  else (s0.val % 8 * 262144 + s1.val % 64 * 4096 + s2.val % 64 * 64
                    + s3.val % 64, 4)

/-- The function `utf8.EncodeRune`: the bytes of a code point, those of
U+FFFD for a surrogate or a value beyond U+10FFFF. -/
def EncodeRune (r : Nat) : Bytes :=
  if r < 0x80 then [Fin.ofNat r]
  else if r < 0x800 then [Fin.ofNat (0xC0 + r / 64), Fin.ofNat (0x80 + r % 64)]
  else if 0x10FFFF < r ∨ (0xD800 ≤ r ∧ r ≤ 0xDFFF) then [0xEF, 0xBF, 0xBD]
  else if r < 0x10000 then
    [Fin.ofNat (0xE0 + r / 4096), Fin.ofNat (0x80 + r / 64 % 64), Fin.ofNat (0x80 + r % 64)]
  else
    [Fin.ofNat (0xF0 + r / 262144), Fin.ofNat (0x80 + r / 4096 % 64),
      Fin.ofNat (0x80 + r / 64 % 64), Fin.ofNat (0x80 + r % 64)]

/-- The Go string that holds a text: the conversion `string(runes)`. -/
def encode (t : Text) : Bytes := (t.map (fun c => EncodeRune c.toNat)).flatten

/-- The walk of `for range` over a Go string, `fuel` bounding the number of
steps: `some c` for each well-formed code point, `none` for each byte that
is not part of one. -/
def runesAux : Nat → Bytes → List (Option Char)
  | 0, _ => []
  | _ + 1, [] => []
  | fuel + 1, b :: rest =>
    if (DecodeRune (b :: rest)).1 = RuneError ∧ (DecodeRune (b :: rest)).2 = 1 then
      none :: runesAux fuel rest
    else
      some (Char.ofNat (DecodeRune (b :: rest)).1)
        :: runesAux fuel ((b :: rest).drop (DecodeRune (b :: rest)).2)

/-- The walk of `for range` over a whole Go string. -/
def runes (s : Bytes) : List (Option Char) := runesAux s.length s

/-- The function `utf8.Valid`: the walk over the string meets no byte that is
not part of a well-formed code point. -/
def Valid (s : Bytes) : Bool := (runes s).all Option.isSome

/-- The text of a Go string, with U+FFFD for each byte that is not part of
valid UTF-8: the conversion `[]rune(s)`. -/
def ToValidText (s : Bytes) : Text := (runes s).map (fun e => e.getD (Char.ofNat RuneError))

end utf8

namespace utf16

/-- The function `utf16.IsSurrogate`. -/
def IsSurrogate (r : Nat) : Bool := decide (0xD800 ≤ r ∧ r < 0xE000)

/-- The function `utf16.DecodeRune`: the code point of a surrogate pair,
U+FFFD when the two values are not one. -/
def DecodeRune (r1 r2 : Nat) : Nat :=
  if 0xD800 ≤ r1 ∧ r1 < 0xDC00 ∧ 0xDC00 ≤ r2 ∧ r2 < 0xE000 then
    (r1 - 0xD800) * 1024 + (r2 - 0xDC00) + 0x10000
  else 0xFFFD

end utf16

/-! ## crypto/subtle -/

namespace subtle

/-- The function `ConstantTimeByteEq(x, y uint8) int`:
`int((uint32(x^y) - 1) >> 31)`, the subtraction wrapping in `uint32`. -/
def ConstantTimeByteEq (x y : Nat) : Nat :=
  (((x ^^^ y) % 2 ^ 32 + 2 ^ 32 - 1) % 2 ^ 32) >>> 31

/-- The loop of `ConstantTimeCompare`: `v |= x[i] ^ y[i]` for every index,
`v` a `byte`. -/
def accumulate : Nat → Bytes → Bytes → Nat
  | v, a :: x, b :: y => accumulate ((v ||| (a.val ^^^ b.val)) % 256) x y
  | v, _, _ => v

/-- The function `ConstantTimeCompare(x, y []byte) int`: 0 when the lengths differ,
otherwise the OR of the byte-wise XORs is compared with 0. -/
def ConstantTimeCompare (x y : Bytes) : Nat :=
  if x.length ≠ y.length then 0
  else ConstantTimeByteEq (accumulate 0 x y) 0

end subtle

/-! ## net/http -/

namespace http

/-- The parts of `*http.Request` that `main.go` reads. -/
structure Request where
  /-- The method, `r.Method` -/
  Method : String
  /-- The path, `r.URL.Path` -/
  Path : String
  /-- The value of `r.Header.Get("Authorization")`: empty when the header is absent -/
  Authorization : Bytes
  /-- What `ioutil.ReadAll(r.Body)` returns -/
  Body : Bytes

/-- An `http.ResponseWriter`. -/
structure ResponseWriter where
  /-- The header map `w.Header()` being edited -/
  header : List (String × String)
  /-- The status code sent, `none` as long as `WriteHeader` has not run -/
  status : Option Nat
  /-- The header map as it was sent with the status line -/
  sent : List (String × String)
  /-- The bytes written after the header -/
  body : Text
  deriving DecidableEq, Repr

namespace ResponseWriter

/-- The writer a handler chain receives for a new request. -/
def fresh : ResponseWriter := ⟨[], none, [], []⟩

/-- The call `w.Header().Set(k, v)`. -/
def Set (w : ResponseWriter) (k v : String) : ResponseWriter :=
  { w with header := (k, v) :: w.header.filter (fun p => p.1 != k) }

/-- The call `w.Header().Del(k)`. -/
def Del (w : ResponseWriter) (k : String) : ResponseWriter :=
  { w with header := w.header.filter (fun p => p.1 != k) }

/-- The call `w.WriteHeader(code)`: sends the status line and the header map; a
second call is ignored. -/
def WriteHeader (w : ResponseWriter) (code : Nat) : ResponseWriter :=
  match w.status with
  | some _ => w
  | none => { w with status := some code, sent := w.header }

/-- The call `w.Write(data)`: an implicit `WriteHeader(http.StatusOK)` when no status
was sent yet, then the data. -/
def Write (w : ResponseWriter) (data : Text) : ResponseWriter :=
  let w1 := w.WriteHeader 200
  { w1 with body := w1.body ++ data }

end ResponseWriter

/-- The constant `http.StatusOK`. -/
def StatusOK : Nat := 200

/-- The constant `http.StatusForbidden`. -/
def StatusForbidden : Nat := 403

/-- The constant `http.StatusNotFound`. -/
def StatusNotFound : Nat := 404

/-- The constant `http.StatusMethodNotAllowed`. -/
def StatusMethodNotAllowed : Nat := 405

/-- The function `http.Error(w, error, code)`: a plain-text reply with the given status
whose body is the message printed as a line (`fmt.Fprintln`). -/
def Error (w : ResponseWriter) (error : String) (code : Nat) : ResponseWriter :=
  let w1 := w.Del "Content-Length"
  let w2 := w1.Set "Content-Type" "text/plain; charset=utf-8"
  let w3 := w2.Set "X-Content-Type-Options" "nosniff"
  let w4 := w3.WriteHeader code
  w4.Write (error.toList ++ ['\n'])

end http


/-! ## encoding/json -/

/-- The struct `Request` of `main.go`: one field, `Query string`, tagged
`json:"query"`. -/
structure Request where
  Query : Bytes
  deriving DecidableEq, Repr

/-- A Go slice value: `none` is the nil slice, `some xs` a non-nil slice
(possibly of length 0). -/
abbrev Slice (α : Type) := Option (List α)

/-- The struct `parser.ParsedComponent` of gopostal: fields `Label` and
`Value`, tagged `json:"label"` and `json:"value"`. -/
structure ParsedComponent where
  Label : Bytes
  Value : Bytes
  deriving DecidableEq, Repr

/-- What the gateway gets from outside `main.go`: the environment variable
`API_KEY`, the syntax check of `encoding/json` and the two operations of the
address library. -/
structure Env where
  /-- The value of `os.Getenv("API_KEY")`: empty when the variable is unset -/
  apiKey : Bytes
  /-- The syntax check `checkValid` of `encoding/json`: is the input one
  well-formed JSON value -/
  checkValid : Bytes → Bool
  /-- The operation `expand.ExpandAddress` -/
  ExpandAddress : Bytes → Slice Bytes
  /-- The operation `parser.ParseAddress` -/
  ParseAddress : Bytes → Slice ParsedComponent

namespace json

/-! ### Decoding -/

/-- A JSON value as the decoder walks it; the digits of a number are not
kept, since `Request` has no numeric field. -/
inductive Value where
  | null
  | bool (b : Bool)
  | number
  | string (s : Bytes)
  | array (elems : List Value)
  | object (members : List (Bytes × Value))

/-- The function `isSpace` of the scanner: space, tab, carriage return and
line feed. -/
def isSpace (b : Byte) : Bool :=
  decide (b.val = 0x20 ∨ b.val = 0x09 ∨ b.val = 0x0D ∨ b.val = 0x0A)

/-- Drops the white space in front. -/
def skipSpace : Bytes → Bytes
  | [] => []
  | b :: t => if isSpace b then skipSpace t else b :: t

/-- Is the byte one of `0` to `9`. -/
def isDigit (b : Byte) : Bool := decide (0x30 ≤ b.val ∧ b.val ≤ 0x39)

/-- Drops the digits in front. -/
def skipDigits : Bytes → Bytes
  | [] => []
  | b :: t => if isDigit b then skipDigits t else b :: t

/-- Reads one digit or more. -/
def digits : Bytes → Option Bytes
  | [] => none
  | b :: t => if isDigit b then some (skipDigits t) else none

/-- Reads a JSON number: an optional minus, `0` or a digit from 1 to 9 with
further digits, an optional fraction, an optional exponent. The result is
the input left. -/
def number (s : Bytes) : Option Bytes :=
  let s1 :=
    match s with
    | [] => []
    | b :: t => if b.val = 0x2D then t else b :: t
  let afterInt : Option Bytes :=
    match s1 with
    | [] => none
    | b :: t =>
      if b.val = 0x30 then some t
      else if 0x31 ≤ b.val ∧ b.val ≤ 0x39 then some (skipDigits t)
      else none
  match afterInt with
  | none => none
  | some s2 =>
    let afterFrac : Option Bytes :=
      match s2 with
      | [] => some []
      | b :: t => if b.val = 0x2E then digits t else some (b :: t)
    match afterFrac with
    | none => none
    | some [] => some []
    | some (b :: t) =>
      if b.val = 0x65 ∨ b.val = 0x45 then
        match t with
        | [] => none
        | sign :: t1 =>
          if sign.val = 0x2B ∨ sign.val = 0x2D then digits t1 else digits (sign :: t1)
      else some (b :: t)

/-- Reads the given bytes, and fails when the input does not start with
them. -/
def expect : Bytes → Bytes → Option Bytes
  | [], t => some t
  | _ :: _, [] => none
  | c :: cs, d :: t => if c = d then expect cs t else none

/-- The value of a hexadecimal digit, in either case. -/
def hexDigit (b : Byte) : Option Nat :=
  if 0x30 ≤ b.val ∧ b.val ≤ 0x39 then some (b.val - 0x30)
  else if 0x61 ≤ b.val ∧ b.val ≤ 0x66 then some (b.val - 0x61 + 10)
  else if 0x41 ≤ b.val ∧ b.val ≤ 0x46 then some (b.val - 0x41 + 10)
  else none

/-- The function `getu4`: the value of a `\uXXXX` escape at the start of the
input, `none` (for -1) when there is none. -/
def getu4 : Bytes → Option Nat
  | b0 :: b1 :: h0 :: h1 :: h2 :: h3 :: _ =>
    if b0.val = 0x5C ∧ b1.val = 0x75 then
      match hexDigit h0, hexDigit h1, hexDigit h2, hexDigit h3 with
      | some a, some b, some c, some d => some (((a * 16 + b) * 16 + c) * 16 + d)
      | _, _, _, _ => none
    else none
  | _ => none

/-- The byte a one-letter escape stands for. -/
def unescape (e : Byte) : Option Byte :=
  if e.val = 0x22 ∨ e.val = 0x5C ∨ e.val = 0x2F then some e
  else if e.val = 0x62 then some 0x08
  else if e.val = 0x66 then some 0x0C
  else if e.val = 0x6E then some 0x0A
  else if e.val = 0x72 then some 0x0D
  else if e.val = 0x74 then some 0x09
  else none

/-- Put bytes in front of the string being read. -/
def put (bs : Bytes) (p : Option (Bytes × Bytes)) : Option (Bytes × Bytes) :=
  p.map (fun q => (bs ++ q.1, q.2))

/-- Reads a string literal from just after its opening quote, as the scanner
and `unquote` do together: the Go string it denotes and the input left after
the closing quote. A control character or a bad escape is a syntax error; a
surrogate escape without its pair and a byte that is not part of valid UTF-8
become U+FFFD. `fuel` bounds the number of steps. -/
def quoted : Nat → Bytes → Option (Bytes × Bytes)
  | 0, _ => none
  | _ + 1, [] => none
  | fuel + 1, b :: t =>
    if b.val = 0x22 then some ([], t)
    else if b.val = 0x5C then
      match t with
      | [] => none
      | e :: t1 =>
        if e.val = 0x75 then
          match getu4 (b :: e :: t1) with
          | none => none
          | some rr =>
            if utf16.IsSurrogate rr then
              match getu4 (t1.drop 4) with
              | none => put (utf8.EncodeRune 0xFFFD) (quoted fuel (t1.drop 4))
              | some rr1 =>
                if utf16.DecodeRune rr rr1 ≠ 0xFFFD then
                  put (utf8.EncodeRune (utf16.DecodeRune rr rr1)) (quoted fuel (t1.drop 10))
                else put (utf8.EncodeRune 0xFFFD) (quoted fuel (t1.drop 4))
            else put (utf8.EncodeRune rr) (quoted fuel (t1.drop 4))
        else
          match unescape e with
          | none => none
          | some d => put [d] (quoted fuel t1)
    else if b.val < 0x20 then none
    else if b.val < 0x80 then put [b] (quoted fuel t)
    else
      put (utf8.EncodeRune (utf8.DecodeRune (b :: t)).1)
        (quoted fuel ((b :: t).drop (utf8.DecodeRune (b :: t)).2))

/-- The constant `maxNestingDepth` of the scanner. -/
def maxNestingDepth : Nat := 10000

mutual

/-- Reads one JSON value, white space in front allowed: the value and the
input left. `fuel` bounds the number of nested and successive values,
`depth` counts the arrays and objects that are open. -/
def value : Nat → Nat → Bytes → Option (Value × Bytes)
  | 0, _, _ => none
  | fuel + 1, depth, s =>
    match skipSpace s with
    | [] => none
    | b :: t =>
      if b.val = 0x7B then
        if maxNestingDepth ≤ depth then none
        else
          match skipSpace t with
          | [] => none
          | b1 :: t1 =>
            if b1.val = 0x7D then some (Value.object [], t1)
            else (members fuel (depth + 1) (b1 :: t1)).map (fun p => (Value.object p.1, p.2))
      else if b.val = 0x5B then
        if maxNestingDepth ≤ depth then none
        else
          match skipSpace t with
          | [] => none
          | b1 :: t1 =>
            if b1.val = 0x5D then some (Value.array [], t1)
            else (elements fuel (depth + 1) (b1 :: t1)).map (fun p => (Value.array p.1, p.2))
      else if b.val = 0x22 then
        (quoted (t.length + 1) t).map (fun p => (Value.string p.1, p.2))
      else if b.val = 0x74 then
        (expect [0x72, 0x75, 0x65] t).map (fun r => (Value.bool true, r))
      else if b.val = 0x66 then
        (expect [0x61, 0x6C, 0x73, 0x65] t).map (fun r => (Value.bool false, r))
      else if b.val = 0x6E then
        (expect [0x75, 0x6C, 0x6C] t).map (fun r => (Value.null, r))
      else if b.val = 0x2D ∨ isDigit b then
        (number (b :: t)).map (fun r => (Value.number, r))
      else none

/-- Reads the members of a non-empty object from its first key on, up to the
closing brace. -/
def members : Nat → Nat → Bytes → Option (List (Bytes × Value) × Bytes)
  | 0, _, _ => none
  | fuel + 1, depth, s =>
    match s with
    | [] => none
    | b :: t =>
      if b.val = 0x22 then
        match quoted (t.length + 1) t with
        | none => none
        | some (k, r) =>
          match skipSpace r with
          | [] => none
          | c :: r1 =>
            if c.val = 0x3A then
              match value fuel depth r1 with
              | none => none
              | some (v, r2) =>
                match skipSpace r2 with
                | [] => none
                | d :: r3 =>
                  if d.val = 0x2C then
                    (members fuel depth (skipSpace r3)).map (fun p => ((k, v) :: p.1, p.2))
                  else if d.val = 0x7D then some ([(k, v)], r3)
                  else none
            else none
      else none

/-- Reads the elements of a non-empty array from its first element on, up to
the closing bracket. -/
def elements : Nat → Nat → Bytes → Option (List Value × Bytes)
  | 0, _, _ => none
  | fuel + 1, depth, s =>
    match value fuel depth s with
    | none => none
    | some (v, r) =>
      match skipSpace r with
      | [] => none
      | d :: r1 =>
        if d.val = 0x2C then (elements fuel depth r1).map (fun p => (v :: p.1, p.2))
        else if d.val = 0x5D then some ([v], r1)
        else none

end

/-- Reads a whole input as one JSON value with white space around it. -/
def parse (data : Bytes) : Option Value :=
  match value (data.length + 1) 0 data with
  | none => none
  | some (v, rest) =>
    match skipSpace rest with
    | [] => some v
    | _ :: _ => none

/-- The name `query` that the tag of `Request.Query` gives the field. -/
def queryName : Bytes := [0x71, 0x75, 0x65, 0x72, 0x79]

/-- The upper-case form of an ASCII letter, any other byte unchanged. -/
def upper (b : Byte) : Byte :=
  if 0x61 ≤ b.val ∧ b.val ≤ 0x7A then Fin.ofNat (b.val - 0x20) else b

/-- A key selects a field when it is the name of the field up to the case of
ASCII letters. -/
def equalFold (key name : Bytes) : Bool := key.map upper == name.map upper

/-- Stores one member of an object into a `Request`: a key other than
`query` is skipped; under `query` a string is stored in `Query`, `null`
changes nothing and any other value is recorded as a type error. -/
def storeMember (st : Request × Bool) (m : Bytes × Value) : Request × Bool :=
  if equalFold m.1 queryName then
    match m.2 with
    | Value.string s => (⟨s⟩, st.2)
    | Value.null => st
    | _ => (st.1, true)
  else st

/-- The decoding `d.unmarshal(&req)` of a value into a `Request`: the members
of an object are stored in order, `null` changes nothing, any other value is
a type error. The result is the struct afterwards and whether an error is
returned. -/
def decodeRequest (v : Value) (req : Request) : Request × Bool :=
  match v with
  | Value.object ms => ms.foldl storeMember (req, false)
  | Value.null => (req, false)
  | _ => (req, true)

/-- The function `json.Unmarshal(data, &req)`: the syntax check runs first and,
when it fails, the error is returned with `req` untouched; otherwise the
document is decoded into `req`. The result is the struct afterwards and
whether an error was returned. -/
def Unmarshal (E : Env) (data : Bytes) (req : Request) : Request × Bool :=
  if E.checkValid data then
    match parse data with
    | some v => decodeRequest v req
    | none => (req, true)
  else (req, true)

/-! ### Encoding -/

/-- The table `hex` of `encoding/json`: `"0123456789abcdef"`. -/
def hex (n : Nat) : Char :=
  "0123456789abcdef".toList.getD n '0'

/-- The table `htmlSafeSet`: the ASCII characters written as they are, that is
all from the space on except the double quote, the backslash and the three
characters `<`, `>`, `&`. -/
def htmlSafeSet (c : Char) : Bool :=
  decide (0x20 ≤ c.toNat) && c != '"' && c != '\\' && c != '<' && c != '>' && c != '&'

/-- What the string encoder (`appendString`, HTML escaping on) emits for one
well-formed code point of the string. Backspace and form feed are written
`\\b` and `\\f` as Go does since 1.22; earlier versions write `\\u0008` and
`\\u000c` for them, which denote the same characters. -/
def escape (c : Char) : Text :=
  if c.toNat < 0x80 then
    if htmlSafeSet c then [c]
    else if c = '\\' ∨ c = '"' then ['\\', c]
    else if c.toNat = 0x08 then ['\\', 'b']
    else if c.toNat = 0x0c then ['\\', 'f']
    else if c = '\n' then ['\\', 'n']
    else if c = '\r' then ['\\', 'r']
    else if c = '\t' then ['\\', 't']
    else ['\\', 'u', '0', '0', hex (c.toNat / 16), hex (c.toNat % 16)]
  else if c.toNat = 0x2028 ∨ c.toNat = 0x2029 then
    ['\\', 'u', '2', '0', '2', hex (c.toNat % 16)]
  else [c]

/-- What the string encoder emits at one step of its walk over the string:
the escape of a well-formed code point, and `\\ufffd` for a byte where
`utf8.DecodeRune` returns `(RuneError, 1)`. -/
def escapeStep : Option Char → Text
  | some c => escape c
  | none => ['\\', 'u', 'f', 'f', 'f', 'd']

/-- The JSON encoding of a Go string (`appendString`). -/
def encodeString (s : Bytes) : Text :=
  '"' :: (((utf8.runes s).map escapeStep).flatten ++ ['"'])

/-- The JSON encoding of a struct `ParsedComponent`: its two fields in
declaration order under their tags. -/
def encodeComponent (p : ParsedComponent) : Text :=
  "\x7b\"label\":".toList ++ encodeString p.Label ++ ",\"value\":".toList
    ++ encodeString p.Value ++ ['\x7d']

/-- The elements of an array, separated by commas. -/
def commaSep : List Text → Text
  | [] => []
  | [x] => x
  | x :: y :: rest => x ++ ',' :: commaSep (y :: rest)

/-- The JSON encoding of a slice: `null` for the nil slice, otherwise the
elements between brackets. -/
def encodeSlice {α : Type} (enc : α → Text) : Slice α → Text
  | none => "null".toList
  | some xs => '[' :: (commaSep (xs.map enc) ++ [']'])

/-- The function `json.Marshal` on a `[]string`. -/
def MarshalStrings (v : Slice Bytes) : Text := encodeSlice encodeString v

/-- The function `json.Marshal` on a `[]parser.ParsedComponent`. -/
def MarshalComponents (v : Slice ParsedComponent) : Text := encodeSlice encodeComponent v

end json

/-! ## main.go -/

/-- One call of the address library, with the query it was given. -/
inductive Call where
  | ExpandAddress (query : Bytes)
  | ParseAddress (query : Bytes)
  deriving DecidableEq, Repr

/-- The state of one request being served: the response writer, plus two
pieces of bookkeeping of the embedding: how many times a middleware handed
the request to the handler it wraps (`next.ServeHTTP(w, r)`), and the calls
made to the address library, in order. -/
structure Conn where
  w : http.ResponseWriter
  served : Nat
  calls : List Call
  deriving DecidableEq, Repr

/-- The state in which the server starts serving a request. -/
def Conn.fresh : Conn := ⟨http.ResponseWriter.fresh, 0, []⟩

/-- An `http.Handler`. -/
abbrev Handler := Conn → http.Request → Conn

/-- The call `next.ServeHTTP(w, r)` made by a middleware. -/
def ServeHTTP (next : Handler) (c : Conn) (r : http.Request) : Conn :=
  { next c r with served := c.served + 1 }

/-- The handler returned by `authMiddleware(next)`; `apiKey` is
`os.Getenv("API_KEY")`. -/
def authMiddleware (apiKey : Bytes) (next : Handler) : Handler := fun c r =>
  let token := r.Authorization
  -- "Bearer a", the minimal header value, is 8 characters
  if token.length < 8 then
    { c with w := http.Error c.w "Forbidden" http.StatusForbidden }
  else
    let tokenBytes := token.drop 7
    let keyBytes := apiKey
    let keyIsValid := subtle.ConstantTimeCompare tokenBytes keyBytes == 1
    if keyIsValid then
      -- Pass down the request to the next middleware (or final handler)
      ServeHTTP next c r
    else
      -- Write an error and stop the handler chain
      { c with w := http.Error c.w "Forbidden" http.StatusForbidden }

/-- The seven bytes of `Bearer `, the scheme that precedes the token in the
header value (`"Bearer a"` in the comment of `authMiddleware`). -/
def bearer : Bytes := [66, 101, 97, 114, 101, 114, 32]

/-- The function `HealthHandler`. -/
def HealthHandler : Handler := fun c _ =>
  let w := c.w.WriteHeader http.StatusOK
  { c with w := w.Write "OK".toList }

/-- The function `ExpandHandler`. Both errors that the source discards (of
`json.Unmarshal` and of `json.Marshal`) are discarded here. -/
def ExpandHandler (E : Env) : Handler := fun c r =>
  let w := c.w.Set "Content-Type" "application/json"
  let req : Request := ⟨[]⟩
  let q := r.Body
  let req := (json.Unmarshal E q req).1
  let expansions := E.ExpandAddress req.Query
  let expansionThing := json.MarshalStrings expansions
  { c with w := w.Write expansionThing, calls := c.calls ++ [Call.ExpandAddress req.Query] }

/-- The function `ParserHandler`. -/
def ParserHandler (E : Env) : Handler := fun c r =>
  let w := c.w.Set "Content-Type" "application/json"
  let req : Request := ⟨[]⟩
  let q := r.Body
  let req := (json.Unmarshal E q req).1
  let parsed := E.ParseAddress req.Query
  let parseThing := json.MarshalComponents parsed
  { c with w := w.Write parseThing, calls := c.calls ++ [Call.ParseAddress req.Query] }

/-! ### The router built in `main` -/

/-- A route of the `mux` router: a path, a method and a handler. -/
structure Route where
  Path : String
  Method : String
  handler : Handler

/-- The three `router.HandleFunc(...).Methods(...)` lines of `main`, in order. -/
def routes (E : Env) : List Route :=
  [ ⟨"/health", "GET", HealthHandler⟩,
    ⟨"/expand", "POST", ExpandHandler E⟩,
    ⟨"/parser", "POST", ParserHandler E⟩ ]

/-- A route matches a request when its path and its method both do. -/
def Route.Match (rt : Route) (r : http.Request) : Bool :=
  rt.Path == r.Path && rt.Method == r.Method

/-- The router of `main` serving one request, `router.Use(authMiddleware)`
included: the first matching route is run under the middleware; when only
the method fails to match the reply is 405, and 404 when no path matches
(`mux` runs middleware on matched routes only). -/
def router (E : Env) : Handler := fun c r =>
  match (routes E).find? (fun rt => rt.Match r) with
  | some rt => authMiddleware E.apiKey rt.handler c r
  | none =>
    if (routes E).any (fun rt => rt.Path == r.Path) then
      { c with w := c.w.WriteHeader http.StatusMethodNotAllowed }
    else
      { c with w := http.Error c.w "404 page not found" http.StatusNotFound }

/-! ### The serving goroutine of `main` -/

/-- The error values `s.Serve` and `s.ServeTLS` return (they never return
nil): `http.ErrServerClosed` once `Shutdown` or `Close` was called, any
other error otherwise. -/
inductive ServeError where
  | ErrServerClosed
  | other (msg : String)
  deriving DecidableEq, Repr

/-- How the goroutine ends: by ending the whole process with an exit
status. -/
inductive Outcome where
  | exit (status : Nat)
  deriving DecidableEq, Repr

namespace log

/-- The function `log.Fatal(v)`: prints `v`, then `os.Exit(1)`. -/
def Fatal (_v : ServeError) : Outcome := Outcome.exit 1

end log

/-- The body of the goroutine started by `main`, given the configured file
names and the error the serve call comes back with. -/
def serveGoroutine (certFile keyFile : String) (err : ServeError) : Outcome :=
  if certFile != "" && keyFile != "" then
    -- log.Fatal(s.ServeTLS(l, certFile, keyFile))
    log.Fatal err
  else
    -- log.Fatal(s.Serve(l))
    log.Fatal err

/-! ## Reading a JSON body back

A reader for the JSON text the handlers emit, used to say what a response
body contains: an array of strings, or an array of objects with the members
`label` and `value`, without insignificant white space. -/

namespace reader

/-- Where the reader is inside a string: in plain text, right after a
backslash, or `k` digits into a `\u` escape whose digits so far make `n`. -/
inductive Mode where
  | plain
  | escaped
  | unicode (k n : Nat)

/-- The value of a hexadecimal digit. -/
def hexVal (c : Char) : Option Nat :=
  if '0' ≤ c ∧ c ≤ '9' then some (c.toNat - '0'.toNat)
  else if 'a' ≤ c ∧ c ≤ 'f' then some (c.toNat - 'a'.toNat + 10)
  else if 'A' ≤ c ∧ c ≤ 'F' then some (c.toNat - 'A'.toNat + 10)
  else none

/-- The character a one-letter escape stands for. -/
def unescape (c : Char) : Option Char :=
  if c = '"' then some '"'
  else if c = '\\' then some '\\'
  else if c = '/' then some '/'
  else if c = 'b' then some (Char.ofNat 0x08)
  else if c = 'f' then some (Char.ofNat 0x0c)
  else if c = 'n' then some '\n'
  else if c = 'r' then some '\r'
  else if c = 't' then some '\t'
  else none

/-- Put a character in front of the string being read. -/
def push (c : Char) (p : Option (Text × Text)) : Option (Text × Text) :=
  p.map (fun q => (c :: q.1, q.2))

/-- Reads a JSON string from just after its opening quote: the characters it
denotes and the input left after the closing quote. Control characters and
surrogate escapes are refused. -/
def readChars : Mode → Text → Option (Text × Text)
  | _, [] => none
  | Mode.plain, c :: rest =>
    if c = '"' then some ([], rest)
    else if c = '\\' then readChars Mode.escaped rest
    else if c.toNat < 0x20 then none
    else push c (readChars Mode.plain rest)
  | Mode.escaped, c :: rest =>
    if c = 'u' then readChars (Mode.unicode 0 0) rest
    else
      match unescape c with
      | none => none
      | some d => push d (readChars Mode.plain rest)
  | Mode.unicode k n, c :: rest =>
    match hexVal c with
    | none => none
    | some v =>
      if k < 3 then readChars (Mode.unicode (k + 1) (n * 16 + v)) rest
      else if 0xd800 ≤ n * 16 + v ∧ n * 16 + v ≤ 0xdfff then none
      else push (Char.ofNat (n * 16 + v)) (readChars Mode.plain rest)

/-- Reads a JSON string, opening quote included. -/
def readString : Text → Option (Text × Text)
  | [] => none
  | c :: rest => if c = '"' then readChars Mode.plain rest else none

/-- Reads the given characters, and fails when the input does not start
with them. -/
def expect : Text → Text → Option Text
  | [], t => some t
  | _ :: _, [] => none
  | c :: cs, d :: t => if c = d then expect cs t else none

/-- Reads an object with exactly the members `label` and `value`, both
strings, in this order: the label and the value. -/
def readComponent (t : Text) : Option ((Text × Text) × Text) :=
  match expect "\x7b\"label\":".toList t with
  | none => none
  | some t1 =>
    match readString t1 with
    | none => none
    | some (l, t2) =>
      match expect ",\"value\":".toList t2 with
      | none => none
      | some t3 =>
        match readString t3 with
        | none => none
        | some (v, t4) =>
          match expect ['\x7d'] t4 with
          | none => none
          | some t5 => some ((l, v), t5)

/-- Reads the elements of a non-empty array up to its closing bracket; `fuel`
bounds the number of elements. -/
def readElems {α : Type} (readElem : Text → Option (α × Text)) :
    Nat → Text → Option (List α × Text)
  | 0, _ => none
  | fuel + 1, t =>
    match readElem t with
    | none => none
    | some (_, []) => none
    | some (x, d :: t1) =>
      if d = ',' then (readElems readElem fuel t1).map (fun q => (x :: q.1, q.2))
      else if d = ']' then some ([x], t1)
      else none

/-- Reads a whole text as one JSON array: the empty array, or elements up to
a closing bracket that ends the text. -/
def readArray {α : Type} (readElem : Text → Option (α × Text)) (t : Text) :
    Option (List α) :=
  match t with
  | [] => none
  | c :: rest =>
    if c = '[' then
      if rest = [']'] then some []
      else
        match readElems readElem rest.length rest with
        | some (xs, []) => some xs
        | _ => none
    else none

/-- The array of strings a body denotes, if it is one. -/
def stringArray (body : Text) : Option (List Text) := readArray readString body

/-- The array of label/value objects a body denotes, if it is one: the label
and the value of each. -/
def componentArray (body : Text) : Option (List (Text × Text)) :=
  readArray readComponent body

end reader

/-! ## The request document -/

/-- The bytes of the document `{"query": q}` in the form `json.Marshal` gives
it for a `Request` whose `Query` is `q`: no white space, the string escaped
as by `encodeString`. -/
def queryDocument (q : Bytes) : Bytes :=
  utf8.encode ("\x7b\"query\":".toList ++ json.encodeString q ++ ['\x7d'])

/-! ## A test environment

The set-up of the testable properties of the specification: a fixed secret,
a syntax check that knows one document, and stub operations of the address
library that return fixed results. -/

namespace stub

/-- The bytes of the document `{"query":"781 Franklin Ave"}`. -/
def document : Bytes :=
  [123, 34, 113, 117, 101, 114, 121, 34, 58, 34, 55, 56, 49, 32, 70, 114, 97, 110, 107,
   108, 105, 110, 32, 65, 118, 101, 34, 125]

/-- The query of the document. -/
def query : Bytes := utf8.encode "781 Franklin Ave".toList

/-- The secret `s3c`. -/
def secret : Bytes := [115, 51, 99]

/-- A test environment: every input but `document` is refused as malformed;
the address operations return one expansion and two components for `query`,
and the nil slice for any other query. -/
def env : Env where
  apiKey := secret
  checkValid := fun data => data == document
  ExpandAddress := fun q =>
    if q = query then some [utf8.encode "781 franklin avenue".toList] else none
  ParseAddress := fun q =>
    if q = query then
      some [⟨utf8.encode "house_number".toList, utf8.encode "781".toList⟩,
        ⟨utf8.encode "road".toList, utf8.encode "franklin ave".toList⟩]
    else none

/-- A request for the given route with the header `Bearer s3c`. -/
def request (method path : String) (body : Bytes) : http.Request :=
  ⟨method, path, bearer ++ secret, body⟩

end stub

/-! ## Properties -/

/-! ### The comparison of `crypto/subtle` decides equality -/

namespace subtle

theorem or_eq_zero (x y : Nat) : (x ||| y) = 0 ↔ x = 0 ∧ y = 0 := by
  constructor
  · intro h
    have hb : ∀ i, (x.testBit i || y.testBit i) = false := by
      intro i
      rw [← Nat.testBit_or, h]
      simp
    simp only [Bool.or_eq_false_iff] at hb
    constructor <;> apply Nat.eq_of_testBit_eq <;> intro i <;> simp [(hb i).1, (hb i).2]
  · rintro ⟨rfl, rfl⟩
    simp

theorem or_xor_lt {v a b : Nat} (hv : v < 256) (ha : a < 256) (hb : b < 256) :
    (v ||| (a ^^^ b)) < 256 := by
  have hx : a ^^^ b < 2 ^ 8 := @Nat.xor_lt_two_pow a b 8 ha hb
  exact @Nat.or_lt_two_pow v (a ^^^ b) 8 hv hx

theorem ConstantTimeByteEq_zero {v : Nat} (hv : v < 256) :
    ConstantTimeByteEq v 0 = 1 ↔ v = 0 := by
  unfold ConstantTimeByteEq
  simp only [Nat.xor_zero, Nat.shiftRight_eq_div_pow]
  constructor
  · intro h
    by_contra hne
    have h1 : v % 2 ^ 32 = v := Nat.mod_eq_of_lt (by omega)
    rw [h1] at h
    omega
  · rintro rfl
    decide

theorem accumulate_lt (x y : Bytes) : ∀ v, v < 256 → accumulate v x y < 256 := by
  induction x generalizing y with
  | nil => intro v hv; simpa [accumulate] using hv
  | cons a x ih =>
    intro v hv
    cases y with
    | nil => simpa [accumulate] using hv
    | cons b y =>
      simp only [accumulate]
      exact ih y _ (Nat.mod_lt _ (by norm_num))

theorem accumulate_eq_zero (x y : Bytes) :
    ∀ v, v < 256 → x.length = y.length → (accumulate v x y = 0 ↔ v = 0 ∧ x = y) := by
  induction x generalizing y with
  | nil =>
    intro v _ hlen
    cases y with
    | nil => simp [accumulate]
    | cons b y => simp at hlen
  | cons a x ih =>
    intro v hv hlen
    cases y with
    | nil => simp at hlen
    | cons b y =>
      have hlen1 : x.length = y.length := by simpa using hlen
      have hlt : (v ||| (a.val ^^^ b.val)) < 256 := or_xor_lt hv a.isLt b.isLt
      simp only [accumulate]
      rw [ih y _ (Nat.mod_lt _ (by norm_num)) hlen1, Nat.mod_eq_of_lt hlt, or_eq_zero,
        Nat.xor_eq_zero]
      constructor
      · rintro ⟨⟨hv0, hab⟩, hxy⟩
        exact ⟨hv0, by rw [Fin.ext hab, hxy]⟩
      · rintro ⟨hv0, hxy⟩
        injection hxy with hab hxy
        exact ⟨⟨hv0, by rw [hab]⟩, hxy⟩

/-- The comparison returns 1 exactly on equal byte sequences. -/
theorem ConstantTimeCompare_eq_one (x y : Bytes) : ConstantTimeCompare x y = 1 ↔ x = y := by
  unfold ConstantTimeCompare
  by_cases hlen : x.length = y.length
  · simp only [hlen, ne_eq, not_true_eq_false, if_false]
    rw [ConstantTimeByteEq_zero (accumulate_lt x y 0 (by norm_num)),
      accumulate_eq_zero x y 0 (by norm_num) hlen]
    simp
  · simp only [ne_eq, hlen, not_false_eq_true, if_true]
    constructor
    · intro h; exact absurd h (by decide)
    · intro h; exact absurd (by rw [h]) hlen

end subtle

/-! ### Replies of `net/http` -/

namespace http

theorem Error_status (w : ResponseWriter) (msg : String) (code : Nat) (hw : w.status = none) :
    (Error w msg code).status = some code := by
  simp [Error, ResponseWriter.Write, ResponseWriter.WriteHeader, ResponseWriter.Set,
    ResponseWriter.Del, hw]

theorem Error_body (w : ResponseWriter) (msg : String) (code : Nat) :
    (Error w msg code).body = w.body ++ (msg.toList ++ ['\n']) := by
  unfold Error ResponseWriter.Write ResponseWriter.WriteHeader ResponseWriter.Set
    ResponseWriter.Del
  cases h : w.status <;> simp [h]

end http

/-! ### The middleware -/

/-- The reply of the middleware when it turns a request down. -/
theorem authMiddleware_reject (apiKey : Bytes) (next : Handler) (c : Conn) (r : http.Request)
    (h : ¬ (8 ≤ r.Authorization.length ∧ r.Authorization.drop 7 = apiKey)) :
    authMiddleware apiKey next c r =
      { c with w := http.Error c.w "Forbidden" http.StatusForbidden } := by
  unfold authMiddleware
  by_cases hlen : r.Authorization.length < 8
  · simp [hlen]
  · have hne : ¬ r.Authorization.drop 7 = apiKey := fun he => h ⟨by omega, he⟩
    have hcmp : ¬ subtle.ConstantTimeCompare (r.Authorization.drop 7) apiKey = 1 := by
      rw [subtle.ConstantTimeCompare_eq_one]; exact hne
    simp [hlen, hcmp]

/-- The middleware hands the request on when the credential is the secret. -/
theorem authMiddleware_accept (apiKey : Bytes) (next : Handler) (c : Conn) (r : http.Request)
    (h : 8 ≤ r.Authorization.length ∧ r.Authorization.drop 7 = apiKey) :
    authMiddleware apiKey next c r = ServeHTTP next c r := by
  unfold authMiddleware
  have hlen : ¬ r.Authorization.length < 8 := by omega
  have hcmp : subtle.ConstantTimeCompare (r.Authorization.drop 7) apiKey = 1 := by
    rw [subtle.ConstantTimeCompare_eq_one]; exact h.2
  simp [hlen, hcmp]

/-- The middleware hands the request on exactly when the header has at least
8 bytes and its bytes from offset 7 on are the secret. -/
theorem authMiddleware_served_iff (apiKey : Bytes) (next : Handler) (c : Conn)
    (r : http.Request) :
    (authMiddleware apiKey next c r).served = c.served + 1 ↔
      (8 ≤ r.Authorization.length ∧ r.Authorization.drop 7 = apiKey) := by
  constructor
  · intro hs
    by_contra h
    rw [authMiddleware_reject apiKey next c r h] at hs
    simp at hs
  · intro h
    rw [authMiddleware_accept apiKey next c r h]
    rfl

/-- The router never runs a handler and never calls the address library for
a request the middleware turns down, whatever the route. -/
theorem router_reject (E : Env) (c : Conn) (r : http.Request)
    (h : ¬ (8 ≤ r.Authorization.length ∧ r.Authorization.drop 7 = E.apiKey)) :
    (router E c r).served = c.served ∧ (router E c r).calls = c.calls := by
  unfold router
  cases (routes E).find? (fun rt => rt.Match r) with
  | some rt => simp only []; rw [authMiddleware_reject E.apiKey rt.handler c r h]; exact ⟨rfl, rfl⟩
  | none => simp only []; split <;> exact ⟨rfl, rfl⟩

/-! ### The claims about the authenticator -/

/-- C1: the middleware passes a request to the next handler only if the
Authorization header has at least 8 bytes and its bytes from offset 7 on are
exactly the configured secret (same length, same bytes). Every other header,
so every incorrect credential, is answered with status 403 by
`http.Error(w, "Forbidden", 403)` and the next handler is not invoked. -/
theorem authMiddleware_passes_only_secret (apiKey : Bytes) (next : Handler) (c : Conn)
    (r : http.Request) (hw : c.w.status = none) :
    ((authMiddleware apiKey next c r).served = c.served + 1 →
      8 ≤ r.Authorization.length ∧ r.Authorization.drop 7 = apiKey) ∧
    (¬ (8 ≤ r.Authorization.length ∧ r.Authorization.drop 7 = apiKey) →
      (authMiddleware apiKey next c r).w.status = some 403 ∧
      (authMiddleware apiKey next c r).served = c.served ∧
      authMiddleware apiKey next c r =
        { c with w := http.Error c.w "Forbidden" http.StatusForbidden }) := by
  refine ⟨(authMiddleware_served_iff apiKey next c r).1, fun h => ?_⟩
  rw [authMiddleware_reject apiKey next c r h]
  exact ⟨http.Error_status c.w _ _ hw, rfl, rfl⟩

/-- Witness of C1 at a single-byte mutation of the secret: the secret is
`s3c`, the header `Bearer s3d`. -/
theorem authMiddleware_passes_only_secret_witness :
    Conn.fresh.w.status = none ∧
    (authMiddleware [115, 51, 99] HealthHandler Conn.fresh
      ⟨"GET", "/health", bearer ++ [115, 51, 100], []⟩).w.status = some 403 ∧
    (authMiddleware [115, 51, 99] HealthHandler Conn.fresh
      ⟨"GET", "/health", bearer ++ [115, 51, 100], []⟩).served = 0 :=
  ⟨rfl,
   ((authMiddleware_passes_only_secret [115, 51, 99] HealthHandler Conn.fresh
      ⟨"GET", "/health", bearer ++ [115, 51, 100], []⟩ rfl).2 (by decide)).1,
   ((authMiddleware_passes_only_secret [115, 51, 99] HealthHandler Conn.fresh
      ⟨"GET", "/health", bearer ++ [115, 51, 100], []⟩ rfl).2 (by decide)).2.1⟩

/-- C2 fails for the empty secret: the header `Bearer ` followed by the empty
secret has 7 bytes, the middleware answers 403 and does not invoke the next
handler. The same holds for the 6 bytes `Bearer` that are left of this
header once surrounding white space is trimmed. -/
theorem authMiddleware_bearer_empty_secret_rejected :
    (authMiddleware [] HealthHandler Conn.fresh
      ⟨"GET", "/health", bearer ++ [], []⟩).served = 0 ∧
    (authMiddleware [] HealthHandler Conn.fresh
      ⟨"GET", "/health", bearer ++ [], []⟩).w.status = some 403 ∧
    (authMiddleware [] HealthHandler Conn.fresh
      ⟨"GET", "/health", bearer.take 6, []⟩).served = 0 ∧
    (authMiddleware [] HealthHandler Conn.fresh
      ⟨"GET", "/health", bearer.take 6, []⟩).w.status = some 403 := by
  have h : ¬ (8 ≤ (bearer ++ ([] : Bytes)).length ∧ (bearer ++ ([] : Bytes)).drop 7 = []) := by
    decide
  have h6 : ¬ (8 ≤ (bearer.take 6).length ∧ (bearer.take 6).drop 7 = []) := by
    decide
  rw [authMiddleware_reject [] HealthHandler Conn.fresh ⟨"GET", "/health", bearer ++ [], []⟩ h,
    authMiddleware_reject [] HealthHandler Conn.fresh ⟨"GET", "/health", bearer.take 6, []⟩ h6]
  exact ⟨rfl, http.Error_status _ _ _ rfl, rfl, http.Error_status _ _ _ rfl⟩

/-- C2, amended: for every non-empty configured secret, a request whose
Authorization header is `Bearer ` followed by exactly the secret is passed to
the next handler: the handler is invoked once and the response is the one
this handler writes, the middleware writing nothing itself. -/
theorem authMiddleware_bearer_secret_passes (apiKey : Bytes) (next : Handler) (c : Conn)
    (r : http.Request) (hk : apiKey ≠ []) (hr : r.Authorization = bearer ++ apiKey) :
    (authMiddleware apiKey next c r).served = c.served + 1 ∧
    (authMiddleware apiKey next c r).w = (next c r).w ∧
    authMiddleware apiKey next c r = ServeHTTP next c r := by
  have hlen : 0 < apiKey.length := List.length_pos.2 hk
  have h : 8 ≤ r.Authorization.length ∧ r.Authorization.drop 7 = apiKey := by
    rw [hr]
    refine ⟨by simp [bearer]; omega, ?_⟩
    simp [bearer]
  rw [authMiddleware_accept apiKey next c r h]
  exact ⟨rfl, rfl, rfl⟩

/-- Witness of the amended C2: secret `s3c`, header `Bearer s3c`, in front
of the health handler. -/
theorem authMiddleware_bearer_secret_passes_witness :
    ([115, 51, 99] : Bytes) ≠ [] ∧
    (authMiddleware [115, 51, 99] HealthHandler Conn.fresh
      ⟨"GET", "/health", bearer ++ [115, 51, 99], []⟩).served = 0 + 1 :=
  ⟨by decide,
   (authMiddleware_bearer_secret_passes [115, 51, 99] HealthHandler Conn.fresh
      ⟨"GET", "/health", bearer ++ [115, 51, 99], []⟩ (by decide) rfl).1⟩

/-- C3: for every Authorization header shorter than 8 bytes (the absent
header is the empty value) and every configured secret, the middleware
answers `http.Error(w, "Forbidden", 403)`: the status is 403, the body is
the message `Forbidden` (which `http.Error` prints as one line), and the
next handler is not invoked. -/
theorem authMiddleware_short_header_forbidden (apiKey : Bytes) (next : Handler) (c : Conn)
    (r : http.Request) (hw : c.w.status = none) (hlen : r.Authorization.length < 8) :
    (authMiddleware apiKey next c r).w.status = some 403 ∧
    (authMiddleware apiKey next c r).w.body = c.w.body ++ ("Forbidden".toList ++ ['\n']) ∧
    (authMiddleware apiKey next c r).served = c.served ∧
    authMiddleware apiKey next c r =
      { c with w := http.Error c.w "Forbidden" http.StatusForbidden } := by
  have h : ¬ (8 ≤ r.Authorization.length ∧ r.Authorization.drop 7 = apiKey) := by
    intro h; omega
  rw [authMiddleware_reject apiKey next c r h]
  exact ⟨http.Error_status c.w _ _ hw, http.Error_body c.w _ _, rfl, rfl⟩

/-- Witness of C3: no Authorization header at all, secret `s3c`. -/
theorem authMiddleware_short_header_forbidden_witness :
    Conn.fresh.w.status = none ∧ ([] : Bytes).length < 8 ∧
    (authMiddleware [115, 51, 99] HealthHandler Conn.fresh
      ⟨"GET", "/health", [], []⟩).w.status = some 403 :=
  ⟨rfl, by decide,
   (authMiddleware_short_header_forbidden [115, 51, 99] HealthHandler Conn.fresh
      ⟨"GET", "/health", [], []⟩ rfl (by decide)).1⟩

/-- C4: when the configured secret is empty (`API_KEY` empty or unset) the
middleware rejects every Authorization header with 403 and never invokes the
next handler; through the router no request runs a handler or reaches the
address library. -/
theorem authMiddleware_empty_secret_rejects_all (next : Handler) (c : Conn)
    (r : http.Request) (hw : c.w.status = none) :
    (authMiddleware [] next c r).w.status = some 403 ∧
    (authMiddleware [] next c r).served = c.served ∧
    authMiddleware [] next c r =
      { c with w := http.Error c.w "Forbidden" http.StatusForbidden } ∧
    (∀ E : Env, E.apiKey = [] →
      (router E c r).served = c.served ∧ (router E c r).calls = c.calls) := by
  have h : ∀ k : Bytes, k = [] →
      ¬ (8 ≤ r.Authorization.length ∧ r.Authorization.drop 7 = k) := by
    rintro k rfl ⟨h8, hd⟩
    have := congrArg List.length hd
    simp at this
    omega
  refine ⟨?_, ?_, authMiddleware_reject [] next c r (h [] rfl), ?_⟩
  · rw [authMiddleware_reject [] next c r (h [] rfl)]
    exact http.Error_status c.w _ _ hw
  · rw [authMiddleware_reject [] next c r (h [] rfl)]
  · intro E hE
    exact router_reject E c r (h E.apiKey hE)

/-- Witness of C4: the header `Bearer s3c` against the empty secret, in front
of the health handler and through the router on POST /expand. -/
theorem authMiddleware_empty_secret_rejects_all_witness :
    Conn.fresh.w.status = none ∧
    (authMiddleware [] HealthHandler Conn.fresh
      ⟨"GET", "/health", bearer ++ [115, 51, 99], []⟩).served = 0 ∧
    (router { stub.env with apiKey := [] } Conn.fresh
      ⟨"POST", "/expand", bearer ++ [115, 51, 99], stub.document⟩).calls = [] :=
  ⟨rfl,
   (authMiddleware_empty_secret_rejects_all HealthHandler Conn.fresh
      ⟨"GET", "/health", bearer ++ [115, 51, 99], []⟩ rfl).2.1,
   ((authMiddleware_empty_secret_rejects_all HealthHandler Conn.fresh
      ⟨"POST", "/expand", bearer ++ [115, 51, 99], stub.document⟩ rfl).2.2.2
      { stub.env with apiKey := [] } rfl).2⟩

/-- C5: the first 7 bytes of the Authorization header are never looked at:
for every secret, two headers of at least 8 bytes that agree from offset 7
on get the same decision (both passed to the next handler, or both answered
by the same 403 reply). So a header of at least 8 bytes made of any 7 bytes
followed by the secret is accepted. -/
theorem authMiddleware_ignores_first_seven (apiKey : Bytes) (next : Handler) (c : Conn)
    (r1 r2 : http.Request) (h1 : 8 ≤ r1.Authorization.length)
    (h2 : 8 ≤ r2.Authorization.length)
    (h : r1.Authorization.drop 7 = r2.Authorization.drop 7) :
    ((authMiddleware apiKey next c r1).served = c.served + 1 ↔
      (authMiddleware apiKey next c r2).served = c.served + 1) ∧
    ((authMiddleware apiKey next c r1).served = c.served ↔
      (authMiddleware apiKey next c r2).served = c.served) ∧
    ((authMiddleware apiKey next c r1).served = c.served →
      authMiddleware apiKey next c r1 = authMiddleware apiKey next c r2) ∧
    (∀ p : Bytes, p.length = 7 → r1.Authorization = p ++ apiKey →
      (authMiddleware apiKey next c r1).served = c.served + 1) := by
  have e1 := authMiddleware_served_iff apiKey next c r1
  have e2 := authMiddleware_served_iff apiKey next c r2
  have hiff : (8 ≤ r1.Authorization.length ∧ r1.Authorization.drop 7 = apiKey) ↔
      (8 ≤ r2.Authorization.length ∧ r2.Authorization.drop 7 = apiKey) := by
    rw [h]; exact ⟨fun a => ⟨h2, a.2⟩, fun a => ⟨h1, a.2⟩⟩
  have hrej : ∀ r : http.Request, (authMiddleware apiKey next c r).served = c.served →
      ¬ (8 ≤ r.Authorization.length ∧ r.Authorization.drop 7 = apiKey) := by
    intro r hs hc
    have := (authMiddleware_served_iff apiKey next c r).2 hc
    omega
  have hrej2 : ∀ r : http.Request,
      ¬ (8 ≤ r.Authorization.length ∧ r.Authorization.drop 7 = apiKey) →
      (authMiddleware apiKey next c r).served = c.served := by
    intro r hc
    rw [authMiddleware_reject apiKey next c r hc]
  refine ⟨by rw [e1, e2, hiff], ⟨fun hs => ?_, fun hs => ?_⟩, fun hs => ?_, fun p hp hr => ?_⟩
  · exact hrej2 r2 (fun hc => hrej r1 hs (hiff.2 hc))
  · exact hrej2 r1 (fun hc => hrej r2 hs (hiff.1 hc))
  · have n1 := hrej r1 hs
    have n2 : ¬ (8 ≤ r2.Authorization.length ∧ r2.Authorization.drop 7 = apiKey) :=
      fun hc => n1 (hiff.2 hc)
    rw [authMiddleware_reject apiKey next c r1 n1, authMiddleware_reject apiKey next c r2 n2]
  · refine e1.2 ⟨h1, ?_⟩
    rw [hr, List.drop_append_of_le_length (by omega)]
    simp [hp]

/-- Witness of C5: the headers `Bearer s3c` and `XXXXXXXs3c` against the
secret `s3c`. -/
theorem authMiddleware_ignores_first_seven_witness :
    8 ≤ (bearer ++ ([115, 51, 99] : Bytes)).length ∧
    8 ≤ (([88, 88, 88, 88, 88, 88, 88] : Bytes) ++ [115, 51, 99]).length ∧
    (authMiddleware [115, 51, 99] HealthHandler Conn.fresh
      ⟨"GET", "/health", [88, 88, 88, 88, 88, 88, 88] ++ [115, 51, 99], []⟩).served = 0 + 1 :=
  ⟨by decide, by decide,
   (authMiddleware_ignores_first_seven [115, 51, 99] HealthHandler Conn.fresh
      ⟨"GET", "/health", [88, 88, 88, 88, 88, 88, 88] ++ [115, 51, 99], []⟩
      ⟨"GET", "/health", bearer ++ [115, 51, 99], []⟩ (by decide) (by decide) (by decide)).2.2.2
      [88, 88, 88, 88, 88, 88, 88] rfl rfl⟩

/-! ### The route table -/

/-- On each of the three registered routes the router runs the middleware in
front of the handler of the route. -/
theorem router_on_route (E : Env) (c : Conn) (r : http.Request)
    (hroute : (r.Method = "GET" ∧ r.Path = "/health") ∨
      (r.Method = "POST" ∧ r.Path = "/expand") ∨ (r.Method = "POST" ∧ r.Path = "/parser")) :
    ∃ h : Handler, (h = HealthHandler ∨ h = ExpandHandler E ∨ h = ParserHandler E) ∧
      (r.Path = "/health" → h = HealthHandler) ∧
      router E c r = authMiddleware E.apiKey h c r := by
  rcases hroute with ⟨hm, hp⟩ | ⟨hm, hp⟩ | ⟨hm, hp⟩
  · exact ⟨HealthHandler, Or.inl rfl, fun _ => rfl, by
      simp [router, routes, List.find?, Route.Match, hm, hp]⟩
  · refine ⟨ExpandHandler E, Or.inr (Or.inl rfl), fun h => ?_, by
      simp [router, routes, List.find?, Route.Match, hm, hp]⟩
    rw [hp] at h; exact absurd h (by decide)
  · refine ⟨ParserHandler E, Or.inr (Or.inr rfl), fun h => ?_, by
      simp [router, routes, List.find?, Route.Match, hm, hp]⟩
    rw [hp] at h; exact absurd h (by decide)

/-! ### UTF-8: decoding what was encoded -/

namespace utf8

theorem DecodeRune_two (a b : Nat) (rest : Bytes) (ha : 0xC2 ≤ a ∧ a < 0xE0)
    (hb : 0x80 ≤ b ∧ b ≤ 0xBF) :
    DecodeRune (Fin.ofNat a :: Fin.ofNat b :: rest) = (a % 32 * 64 + b % 64, 2) := by
  have ea : (Fin.ofNat a : Fin 256).val = a := Nat.mod_eq_of_lt (by omega)
  have eb : (Fin.ofNat b : Fin 256).val = b := Nat.mod_eq_of_lt (by omega)
  have c1 : ¬ a < 0x80 := by omega
  have c2 : ¬ (a < 0xC2 ∨ 0xF4 < a) := by omega
  have c3 : a < 0xE0 := by omega
  have c4 : ¬ a = 0xE0 := by omega
  have c5 : ¬ a = 0xF0 := by omega
  have c6 : ¬ a = 0xED := by omega
  have c7 : ¬ a = 0xF4 := by omega
  have c8 : ¬ (b < 0x80 ∨ 0xBF < b) := by omega
  simp only [DecodeRune, ea, eb, c1, c2, c3, c4, c5, c6, c7, c8, if_true, if_false,
    List.length_cons]
  simp

theorem DecodeRune_three (a b d : Nat) (rest : Bytes) (ha : 0xE0 ≤ a ∧ a < 0xF0)
    (hb : 0x80 ≤ b ∧ b ≤ 0xBF) (hd : 0x80 ≤ d ∧ d ≤ 0xBF)
    (hlo : a = 0xE0 → 0xA0 ≤ b) (hhi : a = 0xED → b ≤ 0x9F) :
    DecodeRune (Fin.ofNat a :: Fin.ofNat b :: Fin.ofNat d :: rest) =
      (a % 16 * 4096 + b % 64 * 64 + d % 64, 3) := by
  have ea : (Fin.ofNat a : Fin 256).val = a := Nat.mod_eq_of_lt (by omega)
  have eb : (Fin.ofNat b : Fin 256).val = b := Nat.mod_eq_of_lt (by omega)
  have ed : (Fin.ofNat d : Fin 256).val = d := Nat.mod_eq_of_lt (by omega)
  have c1 : ¬ a < 0x80 := by omega
  have c2 : ¬ (a < 0xC2 ∨ 0xF4 < a) := by omega
  have c3 : ¬ a < 0xE0 := by omega
  have c3' : a < 0xF0 := by omega
  have c5 : ¬ a = 0xF0 := by omega
  have c7 : ¬ a = 0xF4 := by omega
  have c9 : ¬ (d < 0x80 ∨ 0xBF < d) := by omega
  simp only [DecodeRune, ea, eb, ed, c1, c2, c3, c3', c5, c7, c9, if_true, if_false,
    List.length_cons]
  by_cases h0 : a = 0xE0
  · have c8 : ¬ (b < 0xA0 ∨ 0xBF < b) := by have := hlo h0; omega
    have c6 : ¬ a = 0xED := by omega
    simp [h0, c8]
  · by_cases h1 : a = 0xED
    · have c8 : ¬ (b < 0x80 ∨ 0x9F < b) := by have := hhi h1; omega
      simp [h1, c8]
    · have c8 : ¬ (b < 0x80 ∨ 0xBF < b) := by omega
      simp [h0, h1, c8]

theorem DecodeRune_four (a b d e : Nat) (rest : Bytes) (ha : 0xF0 ≤ a ∧ a ≤ 0xF4)
    (hb : 0x80 ≤ b ∧ b ≤ 0xBF) (hd : 0x80 ≤ d ∧ d ≤ 0xBF) (he : 0x80 ≤ e ∧ e ≤ 0xBF)
    (hlo : a = 0xF0 → 0x90 ≤ b) (hhi : a = 0xF4 → b ≤ 0x8F) :
    DecodeRune (Fin.ofNat a :: Fin.ofNat b :: Fin.ofNat d :: Fin.ofNat e :: rest) =
      (a % 8 * 262144 + b % 64 * 4096 + d % 64 * 64 + e % 64, 4) := by
  have ea : (Fin.ofNat a : Fin 256).val = a := Nat.mod_eq_of_lt (by omega)
  have eb : (Fin.ofNat b : Fin 256).val = b := Nat.mod_eq_of_lt (by omega)
  have ed : (Fin.ofNat d : Fin 256).val = d := Nat.mod_eq_of_lt (by omega)
  have ee : (Fin.ofNat e : Fin 256).val = e := Nat.mod_eq_of_lt (by omega)
  have c1 : ¬ a < 0x80 := by omega
  have c2 : ¬ (a < 0xC2 ∨ 0xF4 < a) := by omega
  have c3 : ¬ a < 0xE0 := by omega
  have c3' : ¬ a < 0xF0 := by omega
  have c4 : ¬ a = 0xE0 := by omega
  have c6 : ¬ a = 0xED := by omega
  have c9 : ¬ (d < 0x80 ∨ 0xBF < d) := by omega
  have c10 : ¬ (e < 0x80 ∨ 0xBF < e) := by omega
  simp only [DecodeRune, ea, eb, ed, ee, c1, c2, c3, c3', c4, c6, c9, c10, if_true,
    if_false, List.length_cons]
  by_cases h0 : a = 0xF0
  · have c8 : ¬ (b < 0x90 ∨ 0xBF < b) := by have := hlo h0; omega
    simp [h0, c8]
  · by_cases h1 : a = 0xF4
    · have c8 : ¬ (b < 0x80 ∨ 0x8F < b) := by have := hhi h1; omega
      simp [h1, c8]
    · have c8 : ¬ (b < 0x80 ∨ 0xBF < b) := by omega
      simp [h0, h1, c8]

theorem DecodeRune_EncodeRune (c : Char) (rest : Bytes) :
    DecodeRune (EncodeRune c.toNat ++ rest) =
      (c.toNat, (EncodeRune c.toNat).length) := by
  have hv : c.toNat < 0xD800 ∨ (0xDFFF < c.toNat ∧ c.toNat < 0x110000) := by
    have := c.valid
    simp only [UInt32.isValidChar, Nat.isValidChar] at this
    exact this
  generalize c.toNat = n at hv
  unfold EncodeRune
  split_ifs with h1 h2 h3 h4
  · simp [DecodeRune, Fin.ofNat, Nat.mod_eq_of_lt (by omega : n < 256), h1]
  · simp only [List.cons_append, List.nil_append, List.length_cons, List.length_nil]
    rw [DecodeRune_two _ _ rest (by omega) (by omega)]
    congr 1
    omega
  · omega
  · simp only [List.cons_append, List.nil_append, List.length_cons, List.length_nil]
    rw [DecodeRune_three _ _ _ rest (by omega) (by omega) (by omega) (by omega) (by omega)]
    congr 1
    omega
  · simp only [List.cons_append, List.nil_append, List.length_cons, List.length_nil]
    rw [DecodeRune_four _ _ _ _ rest (by omega) (by omega) (by omega) (by omega) (by omega)
      (by omega)]
    congr 1
    omega

theorem EncodeRune_length_pos (n : Nat) : 0 < (EncodeRune n).length := by
  unfold EncodeRune
  split_ifs <;> simp

theorem EncodeRune_length_eq_one (n : Nat) (h : (EncodeRune n).length = 1) : n < 0x80 := by
  unfold EncodeRune at h
  split_ifs at h with h1 <;> simp at h
  exact h1

/-- The walk over the encoding of a text finds the characters of the text,
and no byte outside a well-formed code point. -/
theorem runesAux_encode (t : Text) :
    ∀ fuel, (encode t).length ≤ fuel → runesAux fuel (encode t) = t.map some := by
  induction t with
  | nil =>
    intro fuel _
    cases fuel <;> simp [encode, runesAux]
  | cons c t ih =>
    intro fuel hf
    have hpos := EncodeRune_length_pos c.toNat
    have henc : encode (c :: t) = EncodeRune c.toNat ++ encode t := by
      simp [encode]
    rw [henc] at hf ⊢
    simp only [List.length_append] at hf
    obtain ⟨f, rfl⟩ : ∃ f, fuel = f + 1 := ⟨fuel - 1, by omega⟩
    obtain ⟨b, bs, hb⟩ : ∃ b bs, EncodeRune c.toNat = b :: bs := by
      cases h : EncodeRune c.toNat with
      | nil => rw [h] at hpos; simp at hpos
      | cons b bs => exact ⟨b, bs, rfl⟩
    have hd := DecodeRune_EncodeRune c (encode t)
    rw [hb] at hd hf
    rw [hb]
    simp only [List.cons_append] at hd ⊢
    have hnot : ¬ ((DecodeRune (b :: (bs ++ encode t))).1 = RuneError ∧
        (DecodeRune (b :: (bs ++ encode t))).2 = 1) := by
      rw [hd]
      rintro ⟨h1, h2⟩
      have h3 := EncodeRune_length_eq_one c.toNat (by rw [hb]; exact h2)
      simp only [RuneError] at h1
      omega
    have hdrop : List.drop (b :: bs).length (b :: (bs ++ encode t)) = encode t := by
      rw [← List.cons_append, List.drop_left]
    rw [runesAux, if_neg hnot, hd]
    simp only [Char.ofNat_toNat, List.map_cons]
    rw [hdrop, ih f (by simp only [List.length_cons] at hf; omega)]

/-- The text of the Go string that holds a text is this text: a valid UTF-8
string is read without loss. -/
theorem ToValidText_encode (t : Text) : ToValidText (encode t) = t := by
  unfold ToValidText runes
  rw [runesAux_encode t _ (le_refl _)]
  simp [List.map_map, Function.comp_def]

end utf8

/-! ### Reading back what `json.Marshal` wrote -/

namespace reader

open json

theorem char_eq_iff (c d : Char) : c = d ↔ c.toNat = d.toNat := by
  constructor
  · intro h; rw [h]
  · intro h
    have := congrArg Char.ofNat h
    simpa using this

theorem hexVal_hex (v : Nat) (hv : v < 16) : hexVal (hex v) = some v := by
  interval_cases v <;> rfl

theorem readChars_unicode (a b c d : Nat) (ha : a < 16) (hb : b < 16) (hc : c < 16)
    (hd : d < 16) (hs : ¬ (0xd800 ≤ ((a * 16 + b) * 16 + c) * 16 + d ∧
      ((a * 16 + b) * 16 + c) * 16 + d ≤ 0xdfff)) (rest : Text) :
    readChars Mode.plain ('\\' :: 'u' :: hex a :: hex b :: hex c :: hex d :: rest) =
      push (Char.ofNat (((a * 16 + b) * 16 + c) * 16 + d)) (readChars Mode.plain rest) := by
  have e1 : ('\\' : Char) ≠ '"' := by decide
  simp only [readChars, e1, if_false, if_true, hexVal_hex a ha, hexVal_hex b hb,
    hexVal_hex c hc, hexVal_hex d hd]
  simp [hs]

theorem readChars_plain_char (c : Char) (rest : Text) (h1 : c ≠ '"') (h2 : c ≠ '\\')
    (h3 : ¬ c.toNat < 0x20) :
    readChars Mode.plain (c :: rest) = push c (readChars Mode.plain rest) := by
  simp [readChars, h1, h2, h3]

theorem readChars_short_escape (e d : Char) (rest : Text) (he : e ≠ 'u')
    (hd : unescape e = some d) :
    readChars Mode.plain ('\\' :: e :: rest) = push d (readChars Mode.plain rest) := by
  have e1 : ('\\' : Char) ≠ '"' := by decide
  simp [readChars, e1, he, hd]

/-- Reading the escape of a character gives back the character. -/
theorem readChars_escape (c : Char) (rest : Text) :
    readChars Mode.plain (escape c ++ rest) = push c (readChars Mode.plain rest) := by
  unfold escape
  split_ifs with h1 h2 h3 h4 h5 h6 h7 h8 h9
  · simp only [htmlSafeSet, Bool.and_eq_true, decide_eq_true_eq, bne_iff_ne, ne_eq] at h2
    obtain ⟨⟨⟨⟨⟨h20, hq⟩, hb⟩, _⟩, _⟩, _⟩ := h2
    exact readChars_plain_char c rest hq hb (by omega)
  · rcases h3 with rfl | rfl
    · exact readChars_short_escape _ _ rest (by decide) (by decide)
    · exact readChars_short_escape _ _ rest (by decide) (by decide)
  · have hc : c = Char.ofNat 0x08 := (char_eq_iff _ _).2 (by rw [h4]; rfl)
    rw [hc]
    exact readChars_short_escape _ _ rest (by decide) (by decide)
  · have hc : c = Char.ofNat 0x0c := (char_eq_iff _ _).2 (by rw [h5]; rfl)
    rw [hc]
    exact readChars_short_escape _ _ rest (by decide) (by decide)
  · rw [h6]
    exact readChars_short_escape _ _ rest (by decide) (by decide)
  · rw [h7]
    exact readChars_short_escape _ _ rest (by decide) (by decide)
  · rw [h8]
    exact readChars_short_escape _ _ rest (by decide) (by decide)
  · have h := readChars_unicode 0 0 (c.toNat / 16) (c.toNat % 16) (by norm_num) (by norm_num)
      (by omega) (Nat.mod_lt _ (by norm_num)) (by omega) rest
    have hv : ((0 * 16 + 0) * 16 + c.toNat / 16) * 16 + c.toNat % 16 = c.toNat := by omega
    rw [hv, Char.ofNat_toNat] at h
    exact h
  · have h := readChars_unicode 2 0 2 (c.toNat % 16) (by norm_num) (by norm_num)
      (by norm_num) (Nat.mod_lt _ (by norm_num)) (by omega) rest
    have hv : ((2 * 16 + 0) * 16 + 2) * 16 + c.toNat % 16 = c.toNat := by omega
    rw [hv, Char.ofNat_toNat] at h
    exact h
  · have hq : c ≠ '"' := by
      intro h; rw [h] at h1; exact h1 (by decide)
    have hb : c ≠ '\\' := by
      intro h; rw [h] at h1; exact h1 (by decide)
    exact readChars_plain_char c rest hq hb (by omega)

theorem readChars_escapeStep (e : Option Char) (rest : Text) :
    readChars Mode.plain (escapeStep e ++ rest) =
      push (e.getD (Char.ofNat utf8.RuneError)) (readChars Mode.plain rest) := by
  cases e with
  | some c => exact readChars_escape c rest
  | none =>
    have h := readChars_unicode 15 15 15 13 (by norm_num) (by norm_num) (by norm_num)
      (by norm_num) (by norm_num) rest
    exact h

/-- Reading what the encoder wrote for a string, up to the closing quote,
gives the code points of the string, U+FFFD standing for each byte that is
not part of valid UTF-8, and what follows the quote. -/
theorem readChars_flatten (es : List (Option Char)) (rest : Text) :
    readChars Mode.plain ((es.map escapeStep).flatten ++ '"' :: rest) =
      some (es.map (fun e => e.getD (Char.ofNat utf8.RuneError)), rest) := by
  induction es with
  | nil => simp [readChars]
  | cons e es ih =>
    simp only [List.map_cons, List.flatten_cons, List.append_assoc]
    rw [readChars_escapeStep, ih]
    rfl

/-- Reading an encoded string gives the text of the string. -/
theorem readString_encodeString (s : Bytes) (rest : Text) :
    readString (encodeString s ++ rest) = some (utf8.ToValidText s, rest) := by
  simp only [encodeString, List.cons_append, List.append_assoc, readString, if_true]
  exact readChars_flatten (utf8.runes s) rest

theorem expect_append (pre t : Text) : expect pre (pre ++ t) = some t := by
  induction pre with
  | nil => cases t <;> rfl
  | cons c cs ih => simp [expect, ih]

/-- Reading an encoded component gives the texts of its label and value. -/
theorem readComponent_encodeComponent (p : ParsedComponent) (rest : Text) :
    readComponent (encodeComponent p ++ rest) =
      some ((utf8.ToValidText p.Label, utf8.ToValidText p.Value), rest) := by
  simp only [encodeComponent, readComponent, List.append_assoc, expect_append,
    readString_encodeString]

theorem length_le_commaSep {α : Type} (enc : α → Text) (henc : ∀ x, enc x ≠ []) :
    ∀ xs : List α, xs.length ≤ (commaSep (xs.map enc)).length := by
  intro xs
  induction xs with
  | nil => simp [commaSep]
  | cons x xs ih =>
    have hx : 0 < (enc x).length := List.length_pos.2 (henc x)
    cases xs with
    | nil => simp only [List.map_cons, List.map_nil, commaSep, List.length_cons,
        List.length_nil]; omega
    | cons y ys =>
      simp only [List.map_cons, commaSep, List.length_append, List.length_cons] at ih ⊢
      omega

theorem readElems_commaSep {α β : Type} (readElem : Text → Option (β × Text))
    (enc : α → Text) (f : α → β)
    (hrt : ∀ x rest, readElem (enc x ++ rest) = some (f x, rest)) :
    ∀ (xs : List α) (x : α) (fuel : Nat) (rest : Text), xs.length < fuel →
      readElems readElem fuel (commaSep ((x :: xs).map enc) ++ ']' :: rest) =
        some ((x :: xs).map f, rest) := by
  intro xs
  induction xs with
  | nil =>
    intro x fuel rest hf
    obtain ⟨g, rfl⟩ : ∃ g, fuel = g + 1 := ⟨fuel - 1, by omega⟩
    have e1 : (']' : Char) ≠ ',' := by decide
    simp [commaSep, readElems, hrt, e1]
  | cons y ys ih =>
    intro x fuel rest hf
    obtain ⟨g, rfl⟩ : ∃ g, fuel = g + 1 := ⟨fuel - 1, by omega⟩
    have hlen : ys.length < g := by simp at hf; omega
    have h := ih y g rest hlen
    simp only [List.map_cons] at h
    simp only [List.map_cons, commaSep, List.append_assoc, List.cons_append, readElems, hrt,
      if_true, h]
    rfl

/-- Reading the encoding of a non-nil slice gives what is read of each of
its elements, in order. -/
theorem readArray_encodeSlice {α β : Type} (readElem : Text → Option (β × Text))
    (enc : α → Text) (f : α → β)
    (hrt : ∀ x rest, readElem (enc x ++ rest) = some (f x, rest))
    (henc : ∀ x, enc x ≠ []) (xs : List α) :
    readArray readElem (encodeSlice enc (some xs)) = some (xs.map f) := by
  cases xs with
  | nil => simp [encodeSlice, commaSep, readArray]
  | cons x xs =>
    have hlen := length_le_commaSep enc henc (x :: xs)
    have hne : commaSep ((x :: xs).map enc) ++ [']'] ≠ [']'] := by
      intro h
      have := congrArg List.length h
      simp only [List.length_append, List.length_cons, List.length_nil] at this hlen
      omega
    have hfuel : xs.length < (commaSep ((x :: xs).map enc) ++ [']']).length := by
      simp only [List.length_append, List.length_cons, List.length_nil] at hlen ⊢
      omega
    simp only [encodeSlice, readArray, if_true, hne, if_false]
    rw [readElems_commaSep readElem enc f hrt xs x _ [] hfuel]

theorem encodeString_ne_nil (s : Bytes) : encodeString s ≠ [] := by
  simp [encodeString]

theorem encodeComponent_ne_nil (p : ParsedComponent) : encodeComponent p ≠ [] := by
  intro h
  have := congrArg List.length h
  simp [encodeComponent] at this

/-- The body `json.Marshal` makes of a non-nil `[]string` is a JSON array
that holds the texts of these strings, in order. -/
theorem stringArray_MarshalStrings (xs : List Bytes) :
    stringArray (MarshalStrings (some xs)) = some (xs.map utf8.ToValidText) :=
  readArray_encodeSlice readString encodeString utf8.ToValidText readString_encodeString
    encodeString_ne_nil xs

/-- The body `json.Marshal` makes of a non-nil `[]ParsedComponent` is a JSON
array of label/value objects that holds the texts of these components, in
order. -/
theorem componentArray_MarshalComponents (ps : List ParsedComponent) :
    componentArray (MarshalComponents (some ps)) =
      some (ps.map (fun p => (utf8.ToValidText p.Label, utf8.ToValidText p.Value))) :=
  readArray_encodeSlice readComponent encodeComponent
    (fun p => (utf8.ToValidText p.Label, utf8.ToValidText p.Value))
    readComponent_encodeComponent encodeComponent_ne_nil ps

end reader

/-! ### Decoding the request document -/

namespace utf8

theorem encode_cons (c : Char) (t : Text) : encode (c :: t) = EncodeRune c.toNat ++ encode t := by
  simp [encode]

theorem encode_append (a b : Text) : encode (a ++ b) = encode a ++ encode b := by
  simp [encode]

theorem EncodeRune_ascii (n : Nat) (h : n < 0x80) : EncodeRune n = [Fin.ofNat n] := by
  simp [EncodeRune, h]

theorem EncodeRune_head (n : Nat) (h : 0x80 ≤ n) :
    ∃ b bs, EncodeRune n = b :: bs ∧ 0x80 ≤ b.val := by
  unfold EncodeRune
  split_ifs with h1 h2 h3 h4
  · omega
  · exact ⟨_, _, rfl, by simp only [Fin.ofNat, Nat.succ_eq_add_one]; omega⟩
  · exact ⟨_, _, rfl, by decide⟩
  · exact ⟨_, _, rfl, by simp only [Fin.ofNat, Nat.succ_eq_add_one]; omega⟩
  · exact ⟨_, _, rfl, by simp only [Fin.ofNat, Nat.succ_eq_add_one]; omega⟩

end utf8

namespace json

theorem hexDigit_hex (v : Nat) (hv : v < 16) :
    hexDigit (Fin.ofNat (hex v).toNat) = some v ∧ (hex v).toNat < 0x80 := by
  interval_cases v <;> exact ⟨rfl, by decide⟩

theorem quoted_plain (b : Byte) (t : Bytes) (f : Nat) (h1 : b.val ≠ 0x22) (h2 : b.val ≠ 0x5C)
    (h3 : ¬ b.val < 0x20) (h4 : b.val < 0x80) :
    quoted (f + 1) (b :: t) = put [b] (quoted f t) := by
  simp [quoted, h1, h2, h3, h4]

theorem quoted_short (e d : Byte) (t : Bytes) (f : Nat) (he : e.val ≠ 0x75)
    (hd : unescape e = some d) :
    quoted (f + 1) (0x5C :: e :: t) = put [d] (quoted f t) := by
  have e1 : ¬ ((0x5C : Byte).val = 0x22) := by decide
  have e2 : (0x5C : Byte).val = 0x5C := by decide
  simp only [quoted, e1, e2, he, hd, if_true, if_false]
  simp

theorem quoted_unicode (a b c d : Nat) (ha : a < 16) (hb : b < 16) (hc : c < 16) (hd : d < 16)
    (hs : utf16.IsSurrogate (((a * 16 + b) * 16 + c) * 16 + d) = false) (t : Bytes)
    (f : Nat) :
    quoted (f + 1) (0x5C :: 0x75 :: Fin.ofNat (hex a).toNat :: Fin.ofNat (hex b).toNat
        :: Fin.ofNat (hex c).toNat :: Fin.ofNat (hex d).toNat :: t) =
      put (utf8.EncodeRune (((a * 16 + b) * 16 + c) * 16 + d)) (quoted f t) := by
  have e1 : ¬ ((0x5C : Byte).val = 0x22) := by decide
  have e2 : (0x5C : Byte).val = 0x5C := by decide
  have e3 : (0x75 : Byte).val = 0x75 := by decide
  simp only [quoted, getu4, e1, e2, e3, and_self, if_true, if_false, (hexDigit_hex a ha).1,
    (hexDigit_hex b hb).1, (hexDigit_hex c hc).1, (hexDigit_hex d hd).1, hs, List.drop,
    Bool.false_eq_true]
  simp

/-- The bytes of a text made of ASCII characters. -/
theorem encode_ascii_cons (c : Char) (t : Text) (h : c.toNat < 0x80) :
    utf8.encode (c :: t) = Fin.ofNat c.toNat :: utf8.encode t := by
  rw [utf8.encode_cons, utf8.EncodeRune_ascii _ h]
  rfl

/-- Decoding what the encoder wrote at one step gives the bytes of the code
point of this step, U+FFFD for a byte that is not part of valid UTF-8. -/
theorem quoted_escapeStep (e : Option Char) (t : Bytes) (f : Nat) :
    quoted (f + 1) (utf8.encode (escapeStep e) ++ t) =
      put (utf8.EncodeRune (e.getD (Char.ofNat utf8.RuneError)).toNat) (quoted f t) := by
  cases e with
  | none =>
    exact quoted_unicode 15 15 15 13 (by norm_num) (by norm_num) (by norm_num) (by norm_num)
      (by decide) t f
  | some c =>
    simp only [escapeStep, Option.getD_some]
    unfold escape
    split_ifs with h1 h2 h3 h4 h5 h6 h7 h8 h9
    · simp only [htmlSafeSet, Bool.and_eq_true, decide_eq_true_eq, bne_iff_ne, ne_eq] at h2
      obtain ⟨⟨⟨⟨⟨h20, hq⟩, hb⟩, _⟩, _⟩, _⟩ := h2
      have hq' : c.toNat ≠ 0x22 := fun h => hq ((reader.char_eq_iff _ _).2 (by rw [h]; rfl))
      have hb' : c.toNat ≠ 0x5C := fun h => hb ((reader.char_eq_iff _ _).2 (by rw [h]; rfl))
      have hv : (Fin.ofNat c.toNat : Fin 256).val = c.toNat := Nat.mod_eq_of_lt (by omega)
      rw [encode_ascii_cons c [] h1, utf8.EncodeRune_ascii _ h1]
      exact quoted_plain _ t f (by rw [hv]; exact hq') (by rw [hv]; exact hb')
        (by rw [hv]; omega) (by rw [hv]; exact h1)
    · rcases h3 with rfl | rfl
      · exact quoted_short _ _ t f (by decide) (by decide)
      · exact quoted_short _ _ t f (by decide) (by decide)
    · have hc : c = Char.ofNat 0x08 := (reader.char_eq_iff _ _).2 (by rw [h4]; rfl)
      rw [hc]
      exact quoted_short _ _ t f (by decide) (by decide)
    · have hc : c = Char.ofNat 0x0c := (reader.char_eq_iff _ _).2 (by rw [h5]; rfl)
      rw [hc]
      exact quoted_short _ _ t f (by decide) (by decide)
    · rw [h6]
      exact quoted_short _ _ t f (by decide) (by decide)
    · rw [h7]
      exact quoted_short _ _ t f (by decide) (by decide)
    · rw [h8]
      exact quoted_short _ _ t f (by decide) (by decide)
    · have hx := hexDigit_hex (c.toNat / 16) (by omega)
      have hy := hexDigit_hex (c.toNat % 16) (Nat.mod_lt _ (by norm_num))
      have h := quoted_unicode 0 0 (c.toNat / 16) (c.toNat % 16) (by norm_num) (by norm_num)
        (by omega) (Nat.mod_lt _ (by norm_num))
        (by simp only [utf16.IsSurrogate, decide_eq_false_iff_not]; omega) t f
      have hv : ((0 * 16 + 0) * 16 + c.toNat / 16) * 16 + c.toNat % 16 = c.toNat := by omega
      rw [hv] at h
      rw [encode_ascii_cons _ _ (by decide), encode_ascii_cons _ _ (by decide),
        encode_ascii_cons _ _ (by decide), encode_ascii_cons _ _ (by decide),
        encode_ascii_cons _ _ hx.2, encode_ascii_cons _ _ hy.2]
      exact h
    · have hy := hexDigit_hex (c.toNat % 16) (Nat.mod_lt _ (by norm_num))
      have h := quoted_unicode 2 0 2 (c.toNat % 16) (by norm_num) (by norm_num)
        (by norm_num) (Nat.mod_lt _ (by norm_num))
        (by simp only [utf16.IsSurrogate, decide_eq_false_iff_not]; omega) t f
      have hv : ((2 * 16 + 0) * 16 + 2) * 16 + c.toNat % 16 = c.toNat := by omega
      rw [hv] at h
      rw [encode_ascii_cons _ _ (by decide), encode_ascii_cons _ _ (by decide),
        encode_ascii_cons _ _ (by decide), encode_ascii_cons _ _ (by decide),
        encode_ascii_cons _ _ (by decide), encode_ascii_cons _ _ hy.2]
      exact h
    · obtain ⟨b, bs, hb, hb80⟩ := utf8.EncodeRune_head c.toNat (by omega)
      have hd := utf8.DecodeRune_EncodeRune c t
      rw [hb] at hd
      rw [utf8.encode_cons, hb]
      simp only [utf8.encode, List.map_nil, List.flatten_nil, List.append_nil,
        List.cons_append] at hd ⊢
      have c1 : ¬ b.val = 0x22 := by omega
      have c2 : ¬ b.val = 0x5C := by omega
      have c3 : ¬ b.val < 0x20 := by omega
      have c4 : ¬ b.val < 0x80 := by omega
      have hdrop : List.drop (b :: bs).length (b :: (bs ++ t)) = t := by
        rw [← List.cons_append, List.drop_left]
      simp only [quoted, c1, c2, c3, c4, if_false, hd]
      simp only [hdrop, hb]

theorem escapeStep_encode_pos (e : Option Char) :
    0 < (utf8.encode (escapeStep e)).length := by
  have h : ∃ c t, escapeStep e = c :: t := by
    cases e with
    | none => exact ⟨_, _, rfl⟩
    | some c =>
      simp only [escapeStep]
      unfold escape
      split_ifs <;> exact ⟨_, _, rfl⟩
  obtain ⟨c, t, h⟩ := h
  rw [h, utf8.encode_cons, List.length_append]
  have := utf8.EncodeRune_length_pos c.toNat
  omega

theorem length_le_encode_flatten (es : List (Option Char)) :
    es.length ≤ (utf8.encode ((es.map escapeStep).flatten)).length := by
  induction es with
  | nil => simp
  | cons e es ih =>
    simp only [List.map_cons, List.flatten_cons, utf8.encode_append, List.length_append,
      List.length_cons]
    have := escapeStep_encode_pos e
    omega

/-- Decoding what the encoder wrote for a string, up to the closing quote,
gives the bytes of the code points of the string, and what follows the
quote. -/
theorem quoted_flatten (es : List (Option Char)) :
    ∀ (f : Nat) (rest : Bytes), es.length < f →
      quoted f (utf8.encode ((es.map escapeStep).flatten) ++ 0x22 :: rest) =
        some (utf8.encode (es.map (fun e => e.getD (Char.ofNat utf8.RuneError))), rest) := by
  induction es with
  | nil =>
    intro f rest hf
    obtain ⟨g, rfl⟩ : ∃ g, f = g + 1 := ⟨f - 1, by omega⟩
    have e1 : (0x22 : Byte).val = 0x22 := by decide
    simp [quoted, utf8.encode, e1]
  | cons e es ih =>
    intro f rest hf
    obtain ⟨g, rfl⟩ : ∃ g, f = g + 1 := ⟨f - 1, by omega⟩
    simp only [List.map_cons, List.flatten_cons, utf8.encode_append, List.append_assoc]
    rw [quoted_escapeStep, ih g rest (by simp only [List.length_cons] at hf; omega)]
    simp [put, utf8.encode_cons]

theorem value_one_member (K V k v : Bytes)
    (hk : ∀ rest : Bytes, quoted ((K ++ 0x22 :: rest).length + 1) (K ++ 0x22 :: rest) =
      some (k, rest))
    (hv : ∀ rest : Bytes, quoted ((V ++ 0x22 :: rest).length + 1) (V ++ 0x22 :: rest) =
      some (v, rest)) (n : Nat) :
    value (n + 3) 0 (0x7B :: 0x22 :: (K ++ 0x22 :: 0x3A :: 0x22 :: (V ++ 0x22 :: [0x7D]))) =
      some (Value.object [(k, Value.string v)], []) := by
  have s1 : ∀ t : Bytes, skipSpace (0x7B :: t) = 0x7B :: t := fun t => by
    have hb : isSpace (0x7B : Byte) = false := by decide
    simp [skipSpace, hb]
  have s2 : ∀ t : Bytes, skipSpace (0x22 :: t) = 0x22 :: t := fun t => by
    have hb : isSpace (0x22 : Byte) = false := by decide
    simp [skipSpace, hb]
  have s3 : ∀ t : Bytes, skipSpace (0x3A :: t) = 0x3A :: t := fun t => by
    have hb : isSpace (0x3A : Byte) = false := by decide
    simp [skipSpace, hb]
  have s4 : ∀ t : Bytes, skipSpace (0x7D :: t) = 0x7D :: t := fun t => by
    have hb : isSpace (0x7D : Byte) = false := by decide
    simp [skipSpace, hb]
  have v1 : (0x7B : Byte).val = 0x7B := by decide
  have v2 : (0x22 : Byte).val = 0x22 := by decide
  have v3 : (0x3A : Byte).val = 0x3A := by decide
  have v4 : (0x7D : Byte).val = 0x7D := by decide
  have s5 : skipSpace ([0x7D] : Bytes) = [0x7D] := s4 []
  simp only [value, members, s1, s2, s3, s4, v1, v2, v3, v4, hk, hv, maxNestingDepth]
  simp [s5, v4]

/-- The decoder reads the document `{"query": q}` as an object with the one
member `query` whose value is the string `q`, every byte of `q` that is not
part of valid UTF-8 having become U+FFFD on the way. -/
theorem parse_queryDocument (q : Bytes) :
    parse (queryDocument q) =
      some (Value.object [(queryName, Value.string (utf8.encode (utf8.ToValidText q)))]) := by
  have hkey : ([0x71, 0x75, 0x65, 0x72, 0x79] : Bytes) =
      utf8.encode (([some 'q', some 'u', some 'e', some 'r', some 'y'].map
        escapeStep).flatten) := by decide
  have hdoc : queryDocument q = 0x7B :: 0x22 :: (utf8.encode (([some 'q', some 'u', some 'e',
      some 'r', some 'y'].map escapeStep).flatten) ++ 0x22 :: 0x3A :: 0x22 ::
      (utf8.encode (((utf8.runes q).map escapeStep).flatten) ++ 0x22 :: [0x7D])) := by
    have h1 : utf8.encode "\x7b\"query\":".toList =
        [0x7B, 0x22, 0x71, 0x75, 0x65, 0x72, 0x79, 0x22, 0x3A] := by decide
    have h2 : utf8.encode ['\x7d'] = [0x7D] := by decide
    have h3 : ∀ t : Text, utf8.encode ('"' :: t) = 0x22 :: utf8.encode t := by
      intro t; rw [encode_ascii_cons _ _ (by decide)]; rfl
    have h4 : utf8.encode ['"'] = [0x22] := by decide
    rw [← hkey]
    unfold queryDocument encodeString
    rw [utf8.encode_append, utf8.encode_append, h1, h2, h3, utf8.encode_append, h4]
    simp
  have hlen := length_le_encode_flatten (utf8.runes q)
  have hk : ∀ rest : Bytes, quoted
      ((utf8.encode (([some 'q', some 'u', some 'e', some 'r', some 'y'].map
        escapeStep).flatten) ++ 0x22 :: rest).length + 1)
      (utf8.encode (([some 'q', some 'u', some 'e', some 'r', some 'y'].map
        escapeStep).flatten) ++ 0x22 :: rest) = some (queryName, rest) := by
    intro rest
    rw [quoted_flatten _ _ rest (by rw [← hkey]; simp)]
    rfl
  have hv : ∀ rest : Bytes, quoted
      ((utf8.encode (((utf8.runes q).map escapeStep).flatten) ++ 0x22 :: rest).length + 1)
      (utf8.encode (((utf8.runes q).map escapeStep).flatten) ++ 0x22 :: rest) =
        some (utf8.encode (utf8.ToValidText q), rest) := by
    intro rest
    rw [quoted_flatten _ _ rest (by simp only [List.length_append, List.length_cons]; omega)]
    rfl
  have hval : ∀ n : Nat, value (n + 3) 0 (queryDocument q) =
      some (Value.object [(queryName, Value.string (utf8.encode (utf8.ToValidText q)))],
        []) := by
    intro n
    rw [hdoc]
    exact value_one_member _ _ _ _ hk hv n
  have hlen2 : ∃ n, (queryDocument q).length + 1 = n + 3 := by
    refine ⟨(queryDocument q).length - 2, ?_⟩
    rw [hdoc]
    simp only [List.length_cons]
    omega
  obtain ⟨n, hn⟩ := hlen2
  unfold parse
  rw [hn, hval n]
  rfl

end json

/-! ### UTF-8: encoding what was decoded -/

namespace utf8

theorem toNat_ofNat (n : Nat) (h : n < 0xD800 ∨ (0xDFFF < n ∧ n < 0x110000)) :
    (Char.ofNat n).toNat = n := by
  have hv : n.isValidChar := h
  simp only [Char.ofNat, hv, dite_true, Char.ofNatAux, Char.toNat]
  rfl

theorem fin_ofNat_eq (b : Byte) (n : Nat) (h : n = b.val) : (Fin.ofNat n : Fin 256) = b := by
  apply Fin.ext
  simp only [Fin.ofNat, Nat.succ_eq_add_one]
  have := b.isLt
  omega

theorem DecodeRune_lead2 (b : Byte) (t : Bytes) (hb : 0xC2 ≤ b.val ∧ b.val < 0xE0) :
    DecodeRune (b :: t) =
      match t with
      | [] => (RuneError, 1)
      | s1 :: _ =>
        if s1.val < 0x80 ∨ 0xBF < s1.val then (RuneError, 1)
        else (b.val % 32 * 64 + s1.val % 64, 2) := by
  have c1 : ¬ b.val < 0x80 := by omega
  have c2 : ¬ (b.val < 0xC2 ∨ 0xF4 < b.val) := by omega
  have c3 : b.val < 0xE0 := by omega
  have c4 : ¬ b.val = 0xE0 := by omega
  have c5 : ¬ b.val = 0xF0 := by omega
  have c6 : ¬ b.val = 0xED := by omega
  have c7 : ¬ b.val = 0xF4 := by omega
  cases t with
  | nil => simp [DecodeRune, c1, c2, c3]
  | cons s1 t1 => simp [DecodeRune, c1, c2, c3, c4, c5, c6, c7]

theorem DecodeRune_lead3 (b : Byte) (t : Bytes) (hb : 0xE0 ≤ b.val ∧ b.val < 0xF0) :
    DecodeRune (b :: t) =
      match t with
      | s1 :: s2 :: _ =>
        if s1.val < (if b.val = 0xE0 then 0xA0 else 0x80) ∨
            (if b.val = 0xED then 0x9F else 0xBF) < s1.val then (RuneError, 1)
        else if s2.val < 0x80 ∨ 0xBF < s2.val then (RuneError, 1)
        else (b.val % 16 * 4096 + s1.val % 64 * 64 + s2.val % 64, 3)
      | _ => (RuneError, 1) := by
  have c1 : ¬ b.val < 0x80 := by omega
  have c2 : ¬ (b.val < 0xC2 ∨ 0xF4 < b.val) := by omega
  have c3 : ¬ b.val < 0xE0 := by omega
  have c3' : b.val < 0xF0 := by omega
  have c5 : ¬ b.val = 0xF0 := by omega
  have c7 : ¬ b.val = 0xF4 := by omega
  match t with
  | [] => simp [DecodeRune, c1, c2, c3, c3']
  | [s1] => simp [DecodeRune, c1, c2, c3, c3']
  | s1 :: s2 :: t2 => simp [DecodeRune, c1, c2, c3, c3', c5, c7]

theorem DecodeRune_lead4 (b : Byte) (t : Bytes) (hb : 0xF0 ≤ b.val ∧ b.val ≤ 0xF4) :
    DecodeRune (b :: t) =
      match t with
      | s1 :: s2 :: s3 :: _ =>
        if s1.val < (if b.val = 0xF0 then 0x90 else 0x80) ∨
            (if b.val = 0xF4 then 0x8F else 0xBF) < s1.val then (RuneError, 1)
        else if s2.val < 0x80 ∨ 0xBF < s2.val then (RuneError, 1)
        else if s3.val < 0x80 ∨ 0xBF < s3.val then (RuneError, 1)
        else (b.val % 8 * 262144 + s1.val % 64 * 4096 + s2.val % 64 * 64 + s3.val % 64, 4)
      | _ => (RuneError, 1) := by
  have c1 : ¬ b.val < 0x80 := by omega
  have c2 : ¬ (b.val < 0xC2 ∨ 0xF4 < b.val) := by omega
  have c3 : ¬ b.val < 0xE0 := by omega
  have c3' : ¬ b.val < 0xF0 := by omega
  have c4 : ¬ b.val = 0xE0 := by omega
  have c6 : ¬ b.val = 0xED := by omega
  match t with
  | [] => simp [DecodeRune, c1, c2, c3, c3']
  | [s1] => simp [DecodeRune, c1, c2, c3, c3']
  | [s1, s2] => simp [DecodeRune, c1, c2, c3, c3']
  | s1 :: s2 :: s3 :: t3 => simp [DecodeRune, c1, c2, c3, c3', c4, c6]

/-- Encoding a code point that `DecodeRune` found gives back the bytes it was
read from. -/
theorem EncodeRune_DecodeRune (b : Byte) (t : Bytes)
    (h : ¬ ((DecodeRune (b :: t)).1 = RuneError ∧ (DecodeRune (b :: t)).2 = 1)) :
    EncodeRune (DecodeRune (b :: t)).1 = (b :: t).take (DecodeRune (b :: t)).2 ∧
    ((DecodeRune (b :: t)).1 < 0xD800 ∨
      (0xDFFF < (DecodeRune (b :: t)).1 ∧ (DecodeRune (b :: t)).1 < 0x110000)) ∧
    1 ≤ (DecodeRune (b :: t)).2 := by
  have hb := b.isLt
  by_cases c1 : b.val < 0x80
  · have hd : DecodeRune (b :: t) = (b.val, 1) := by simp [DecodeRune, c1]
    rw [hd]
    refine ⟨?_, by simp only; omega, by simp⟩
    simp only [EncodeRune_ascii _ c1, fin_ofNat_eq b _ rfl, List.take_succ_cons, List.take_zero]
  by_cases c2 : b.val < 0xC2 ∨ 0xF4 < b.val
  · exact absurd (by simp [DecodeRune, c1, c2]) h
  by_cases c3 : b.val < 0xE0
  · rw [DecodeRune_lead2 b t (by omega)] at h ⊢
    cases t with
    | nil => simp at h
    | cons s1 t1 =>
      have h1 := s1.isLt
      by_cases c4 : s1.val < 0x80 ∨ 0xBF < s1.val
      · simp [c4] at h
      · simp only [c4, if_false]
        refine ⟨?_, by omega, by omega⟩
        have e1 : ¬ (b.val % 32 * 64 + s1.val % 64 < 0x80) := by omega
        have e2 : b.val % 32 * 64 + s1.val % 64 < 0x800 := by omega
        simp only [EncodeRune, e1, e2, if_true, if_false, List.take_succ_cons, List.take_zero]
        rw [fin_ofNat_eq b _ (by omega), fin_ofNat_eq s1 _ (by omega)]
  by_cases c5 : b.val < 0xF0
  · rw [DecodeRune_lead3 b t (by omega)] at h ⊢
    match t with
    | [] => simp at h
    | [s1] => simp at h
    | s1 :: s2 :: t2 =>
      have h1 := s1.isLt
      have h2 := s2.isLt
      simp only at h ⊢
      by_cases c6 : s1.val < (if b.val = 0xE0 then 0xA0 else 0x80) ∨
          (if b.val = 0xED then 0x9F else 0xBF) < s1.val
      · simp [c6] at h
      by_cases c7 : s2.val < 0x80 ∨ 0xBF < s2.val
      · simp [c6, c7] at h
      simp only [c6, c7, if_false]
      have c6' : ¬ (s1.val < 0x80 ∨ 0xBF < s1.val) := by
        split_ifs at c6 <;> omega
      have lo : b.val = 0xE0 → 0xA0 ≤ s1.val := by
        intro hE; simp only [hE, if_true] at c6; omega
      have hi : b.val = 0xED → s1.val ≤ 0x9F := by
        intro hE; simp only [hE, if_true] at c6
        split_ifs at c6 <;> omega
      have e1 : ¬ (b.val % 16 * 4096 + s1.val % 64 * 64 + s2.val % 64 < 0x80) := by
        by_cases hE : b.val = 0xE0
        · have := lo hE; omega
        · omega
      have e2 : ¬ (b.val % 16 * 4096 + s1.val % 64 * 64 + s2.val % 64 < 0x800) := by
        by_cases hE : b.val = 0xE0
        · have := lo hE; omega
        · omega
      have e3 : ¬ (0x10FFFF < b.val % 16 * 4096 + s1.val % 64 * 64 + s2.val % 64 ∨
          (0xD800 ≤ b.val % 16 * 4096 + s1.val % 64 * 64 + s2.val % 64 ∧
            b.val % 16 * 4096 + s1.val % 64 * 64 + s2.val % 64 ≤ 0xDFFF)) := by
        by_cases hE : b.val = 0xED
        · have := hi hE; omega
        · omega
      have e4 : b.val % 16 * 4096 + s1.val % 64 * 64 + s2.val % 64 < 0x10000 := by omega
      refine ⟨?_, by omega, by omega⟩
      simp only [EncodeRune, e1, e2, e3, e4, if_true, if_false, List.take_succ_cons,
        List.take_zero]
      rw [fin_ofNat_eq b _ (by omega), fin_ofNat_eq s1 _ (by omega),
        fin_ofNat_eq s2 _ (by omega)]
  · rw [DecodeRune_lead4 b t (by omega)] at h ⊢
    match t with
    | [] => simp at h
    | [s1] => simp at h
    | [s1, s2] => simp at h
    | s1 :: s2 :: s3 :: t3 =>
      have h1 := s1.isLt
      have h2 := s2.isLt
      have h3 := s3.isLt
      simp only at h ⊢
      by_cases c6 : s1.val < (if b.val = 0xF0 then 0x90 else 0x80) ∨
          (if b.val = 0xF4 then 0x8F else 0xBF) < s1.val
      · simp [c6] at h
      by_cases c7 : s2.val < 0x80 ∨ 0xBF < s2.val
      · simp [c6, c7] at h
      by_cases c8 : s3.val < 0x80 ∨ 0xBF < s3.val
      · simp [c6, c7, c8] at h
      simp only [c6, c7, c8, if_false]
      have c6' : ¬ (s1.val < 0x80 ∨ 0xBF < s1.val) := by
        split_ifs at c6 <;> omega
      have lo : b.val = 0xF0 → 0x90 ≤ s1.val := by
        intro hE; simp only [hE, if_true] at c6; omega
      have hi : b.val = 0xF4 → s1.val ≤ 0x8F := by
        intro hE; simp only [hE, if_true] at c6
        split_ifs at c6 <;> omega
      have e4 : ¬ (b.val % 8 * 262144 + s1.val % 64 * 4096 + s2.val % 64 * 64 + s3.val % 64
          < 0x10000) := by
        by_cases hE : b.val = 0xF0
        · have := lo hE; omega
        · omega
      have e5 : b.val % 8 * 262144 + s1.val % 64 * 4096 + s2.val % 64 * 64 + s3.val % 64
          < 0x110000 := by
        by_cases hE : b.val = 0xF4
        · have := hi hE; omega
        · omega
      have e1 : ¬ (b.val % 8 * 262144 + s1.val % 64 * 4096 + s2.val % 64 * 64 + s3.val % 64
          < 0x80) := by omega
      have e2 : ¬ (b.val % 8 * 262144 + s1.val % 64 * 4096 + s2.val % 64 * 64 + s3.val % 64
          < 0x800) := by omega
      have e3 : ¬ (0x10FFFF < b.val % 8 * 262144 + s1.val % 64 * 4096 + s2.val % 64 * 64
          + s3.val % 64 ∨
          (0xD800 ≤ b.val % 8 * 262144 + s1.val % 64 * 4096 + s2.val % 64 * 64 + s3.val % 64 ∧
            b.val % 8 * 262144 + s1.val % 64 * 4096 + s2.val % 64 * 64 + s3.val % 64
              ≤ 0xDFFF)) := by omega
      refine ⟨?_, by omega, by omega⟩
      simp only [EncodeRune, e1, e2, e3, e4, if_true, if_false, List.take_succ_cons,
        List.take_zero]
      rw [fin_ofNat_eq b _ (by omega), fin_ofNat_eq s1 _ (by omega),
        fin_ofNat_eq s2 _ (by omega), fin_ofNat_eq s3 _ (by omega)]

theorem encode_runesAux (fuel : Nat) :
    ∀ s : Bytes, s.length ≤ fuel → (runesAux fuel s).all Option.isSome = true →
      encode ((runesAux fuel s).map (fun e => e.getD (Char.ofNat RuneError))) = s := by
  induction fuel with
  | zero =>
    intro s hs _
    have : s = [] := List.length_eq_zero.1 (by omega)
    subst this
    rfl
  | succ f ih =>
    intro s hs hall
    cases s with
    | nil => rfl
    | cons b rest =>
      by_cases hinv : (DecodeRune (b :: rest)).1 = RuneError ∧ (DecodeRune (b :: rest)).2 = 1
      · rw [runesAux, if_pos hinv] at hall
        simp at hall
      · rw [runesAux, if_neg hinv] at hall ⊢
        obtain ⟨henc, hvalid, hsize⟩ := EncodeRune_DecodeRune b rest hinv
        simp only [List.all_cons, Option.isSome_some, Bool.true_and] at hall
        simp only [List.map_cons, Option.getD_some, encode_cons, toNat_ofNat _ hvalid]
        rw [henc, ih _ (by
          simp only [List.length_drop, List.length_cons] at hs ⊢
          omega) hall]
        exact List.take_append_drop _ _

/-- A string that is valid UTF-8 is the encoding of its text. -/
theorem encode_ToValidText (s : Bytes) (h : Valid s = true) : encode (ToValidText s) = s :=
  encode_runesAux s.length s (le_refl _) h

end utf8

/-! ### The handlers -/

namespace http

theorem Set_Write (w : ResponseWriter) (k v : String) (data : Text) (hw : w.status = none) :
    ((w.Set k v).Write data).status = some 200 ∧
    ((w.Set k v).Write data).sent.lookup k = some v ∧
    ((w.Set k v).Write data).body = w.body ++ data := by
  simp [ResponseWriter.Write, ResponseWriter.WriteHeader, ResponseWriter.Set, hw, List.lookup]

end http

theorem HealthHandler_reply (c : Conn) (r : http.Request) (hw : c.w.status = none) :
    (HealthHandler c r).w.status = some 200 ∧
    (HealthHandler c r).w.body = c.w.body ++ "OK".toList := by
  simp [HealthHandler, http.ResponseWriter.Write, http.ResponseWriter.WriteHeader, hw,
    http.StatusOK]

/-- The query a handler passes on when the body does not pass the syntax
check is the zero value of `Request.Query`. -/
theorem Unmarshal_malformed (E : Env) (data : Bytes) (req : Request)
    (h : E.checkValid data = false) : json.Unmarshal E data req = (req, true) := by
  simp [json.Unmarshal, h]

/-! ### The claims about routes, handlers and the serving goroutine -/

/-- C6: the middleware stands in front of each of the three registered
routes (GET /health, POST /expand, POST /parser): a request to any of them
whose header is rejected gets the 403 reply, no handler is run and the
address library is not called, while an accepted one runs the handler of
its route once. In particular GET /health with a valid token returns status
200 and exactly the body `OK`, and GET /health without a token returns 403. -/
theorem router_gates_every_route (E : Env) (c : Conn) (r : http.Request)
    (hw : c.w.status = none) (hb : c.w.body = [])
    (hroute : (r.Method = "GET" ∧ r.Path = "/health") ∨
      (r.Method = "POST" ∧ r.Path = "/expand") ∨ (r.Method = "POST" ∧ r.Path = "/parser")) :
    (¬ (8 ≤ r.Authorization.length ∧ r.Authorization.drop 7 = E.apiKey) →
      (router E c r).w.status = some 403 ∧ (router E c r).served = c.served ∧
      (router E c r).calls = c.calls ∧
      router E c r = { c with w := http.Error c.w "Forbidden" http.StatusForbidden }) ∧
    ((8 ≤ r.Authorization.length ∧ r.Authorization.drop 7 = E.apiKey) →
      (router E c r).served = c.served + 1) ∧
    ((8 ≤ r.Authorization.length ∧ r.Authorization.drop 7 = E.apiKey) →
      r.Path = "/health" →
      (router E c r).w.status = some 200 ∧ (router E c r).w.body = "OK".toList) ∧
    (r.Path = "/health" → r.Authorization = [] → (router E c r).w.status = some 403) := by
  obtain ⟨h, _, hhealth, hrt⟩ := router_on_route E c r hroute
  have hrej : ∀ hn : ¬ (8 ≤ r.Authorization.length ∧ r.Authorization.drop 7 = E.apiKey),
      router E c r = { c with w := http.Error c.w "Forbidden" http.StatusForbidden } :=
    fun hn => by rw [hrt, authMiddleware_reject E.apiKey h c r hn]
  refine ⟨fun hn => ?_, fun ha => ?_, fun ha hp => ?_, fun _ hnone => ?_⟩
  · rw [hrej hn]
    exact ⟨http.Error_status c.w _ _ hw, rfl, rfl, rfl⟩
  · rw [hrt, authMiddleware_accept E.apiKey h c r ha]
    rfl
  · rw [hrt, authMiddleware_accept E.apiKey h c r ha, hhealth hp]
    have hh := HealthHandler_reply c r hw
    rw [hb] at hh
    exact hh
  · have hn : ¬ (8 ≤ r.Authorization.length ∧ r.Authorization.drop 7 = E.apiKey) := by
      rw [hnone]; simp
    rw [hrej hn]
    exact http.Error_status c.w _ _ hw

/-- Witness of C6: GET /health with the header `Bearer s3c` in the test
environment, whose secret is `s3c`. -/
theorem router_gates_every_route_witness :
    Conn.fresh.w.status = none ∧ Conn.fresh.w.body = [] ∧
    (router stub.env Conn.fresh (stub.request "GET" "/health" [])).w.status = some 200 ∧
    (router stub.env Conn.fresh (stub.request "GET" "/health" [])).w.body = "OK".toList :=
  ⟨rfl, rfl,
   (router_gates_every_route stub.env Conn.fresh (stub.request "GET" "/health" []) rfl rfl
      (Or.inl ⟨rfl, rfl⟩)).2.2.1 (by decide) rfl⟩

/-- C7: when the request body is empty or fails the JSON syntax check,
`ExpandHandler` and `ParserHandler` do not fail the request: the error of
`json.Unmarshal` is dropped, the address library is called with the empty
query string, and the reply has status 200 (never 400) with the encoded
result for the empty query as body. The syntax check is any one that
refuses the empty input, as the one of `encoding/json` does. -/
theorem handlers_swallow_decode_error (E : Env) (c : Conn) (r : http.Request)
    (hw : c.w.status = none) (hempty : E.checkValid [] = false)
    (hbody : r.Body = [] ∨ E.checkValid r.Body = false) :
    ((ExpandHandler E c r).calls = c.calls ++ [Call.ExpandAddress []] ∧
      (ExpandHandler E c r).w.status = some 200 ∧
      (ExpandHandler E c r).w.body = c.w.body ++ json.MarshalStrings (E.ExpandAddress [])) ∧
    ((ParserHandler E c r).calls = c.calls ++ [Call.ParseAddress []] ∧
      (ParserHandler E c r).w.status = some 200 ∧
      (ParserHandler E c r).w.body =
        c.w.body ++ json.MarshalComponents (E.ParseAddress [])) := by
  have hbad : E.checkValid r.Body = false := by
    rcases hbody with h | h
    · rw [h]; exact hempty
    · exact h
  have hq : (json.Unmarshal E r.Body ⟨[]⟩).1.Query = [] := by
    rw [Unmarshal_malformed E r.Body _ hbad]
  refine ⟨⟨?_, ?_, ?_⟩, ⟨?_, ?_, ?_⟩⟩
  · simp only [ExpandHandler, hq]
  · exact (http.Set_Write c.w _ _ _ hw).1
  · simp only [ExpandHandler, hq]
    exact (http.Set_Write c.w _ _ _ hw).2.2
  · simp only [ParserHandler, hq]
  · exact (http.Set_Write c.w _ _ _ hw).1
  · simp only [ParserHandler, hq]
    exact (http.Set_Write c.w _ _ _ hw).2.2

/-- Witness of C7: the body `not json` (8 bytes) in the test environment. -/
theorem handlers_swallow_decode_error_witness :
    Conn.fresh.w.status = none ∧ stub.env.checkValid [] = false ∧
    stub.env.checkValid [110, 111, 116, 32, 106, 115, 111, 110] = false ∧
    (ExpandHandler stub.env Conn.fresh
      (stub.request "POST" "/expand" [110, 111, 116, 32, 106, 115, 111, 110])).w.status
      = some 200 ∧
    (ExpandHandler stub.env Conn.fresh
      (stub.request "POST" "/expand" [110, 111, 116, 32, 106, 115, 111, 110])).calls
      = [] ++ [Call.ExpandAddress []] :=
  ⟨rfl, by decide, by decide,
   (handlers_swallow_decode_error stub.env Conn.fresh
      (stub.request "POST" "/expand" [110, 111, 116, 32, 106, 115, 111, 110]) rfl (by decide)
      (Or.inr (by decide))).1.2.1,
   (handlers_swallow_decode_error stub.env Conn.fresh
      (stub.request "POST" "/expand" [110, 111, 116, 32, 106, 115, 111, 110]) rfl (by decide)
      (Or.inr (by decide))).1.1⟩

/-- C8 fails in two ways. When the address library returns a nil slice the
body is the JSON value `null`, which is not an array. When it returns a
string that is not valid UTF-8, here the four bytes `caf` and `0xE9`, the
array holds another string, `caf` followed by U+FFFD. In both cases the
request carries the document `{"query":"781 Franklin Ave"}` in the test
environment, whose operations are changed to return these results. -/
theorem handlers_nil_result_is_null :
    (ExpandHandler { stub.env with ExpandAddress := fun _ => none } Conn.fresh
      (stub.request "POST" "/expand" stub.document)).w.body = "null".toList ∧
    reader.stringArray (ExpandHandler { stub.env with ExpandAddress := fun _ => none }
      Conn.fresh (stub.request "POST" "/expand" stub.document)).w.body = none ∧
    (ParserHandler { stub.env with ParseAddress := fun _ => none } Conn.fresh
      (stub.request "POST" "/parser" stub.document)).w.body = "null".toList ∧
    reader.componentArray (ParserHandler { stub.env with ParseAddress := fun _ => none }
      Conn.fresh (stub.request "POST" "/parser" stub.document)).w.body = none ∧
    (ExpandHandler { stub.env with ExpandAddress := fun _ => some [[0x63, 0x61, 0x66, 0xE9]] }
      Conn.fresh (stub.request "POST" "/expand" stub.document)).w.body
      = "[\"caf\\ufffd\"]".toList ∧
    reader.stringArray (ExpandHandler
      { stub.env with ExpandAddress := fun _ => some [[0x63, 0x61, 0x66, 0xE9]] }
      Conn.fresh (stub.request "POST" "/expand" stub.document)).w.body
      = some [['c', 'a', 'f', Char.ofNat 0xFFFD]] ∧
    utf8.encode ['c', 'a', 'f', Char.ofNat 0xFFFD] ≠ [0x63, 0x61, 0x66, 0xE9] := by
  decide

/-- The query that `json.Unmarshal` stores for a document that passes the
syntax check and is an object with the one member `query`, a string. -/
theorem Unmarshal_query (E : Env) (data q : Bytes) (req : Request)
    (hvalid : E.checkValid data = true)
    (hdoc : json.parse data =
      some (json.Value.object [(json.queryName, json.Value.string q)])) :
    json.Unmarshal E data req = (⟨q⟩, false) := by
  have hk : json.equalFold json.queryName json.queryName = true := by decide
  simp [json.Unmarshal, hvalid, hdoc, json.decodeRequest, json.storeMember, hk]

/-- C8, amended: for every request body that is a well-formed JSON document
`{"query": q}` (an object with the one member `query`, the string `q`; the
last part shows that the bytes of `{"query": q}` as `json.Marshal` writes
them are such a document, for every text `q`) and every non-nil slice the
address library returns for `q`, the empty one included: `ExpandHandler`
calls the library with `q` and replies with status 200,
`Content-Type: application/json` and a body that is a JSON array holding the
returned strings in the same order, none added, removed, merged or moved:
each string as it is when it is valid UTF-8 (`utf8.Valid`, or given as the
encoding of a text), and with U+FFFD in place of every byte that is not part
of valid UTF-8 otherwise. `ParserHandler` likewise replies with a JSON array
of objects with the members `label` and `value`, in the order of the
library. When the library returns a nil slice the body is `null`. -/
theorem handlers_emit_result_array (E : Env) (c : Conn) (r : http.Request) (q : Bytes)
    (hw : c.w.status = none) (hb : c.w.body = []) (hvalid : E.checkValid r.Body = true)
    (hdoc : json.parse r.Body =
      some (json.Value.object [(json.queryName, json.Value.string q)])) :
    ((ExpandHandler E c r).calls = c.calls ++ [Call.ExpandAddress q] ∧
      (ExpandHandler E c r).w.status = some 200 ∧
      (ExpandHandler E c r).w.sent.lookup "Content-Type" = some "application/json" ∧
      (ExpandHandler E c r).w.body = json.MarshalStrings (E.ExpandAddress q) ∧
      (∀ xs, E.ExpandAddress q = some xs →
        reader.stringArray (ExpandHandler E c r).w.body = some (xs.map utf8.ToValidText)) ∧
      (∀ ts : List Text, E.ExpandAddress q = some (ts.map utf8.encode) →
        reader.stringArray (ExpandHandler E c r).w.body = some ts) ∧
      (∀ xs, E.ExpandAddress q = some xs → (∀ s ∈ xs, utf8.Valid s = true) →
        ∃ ts, reader.stringArray (ExpandHandler E c r).w.body = some ts ∧
          ts.map utf8.encode = xs) ∧
      (E.ExpandAddress q = none → (ExpandHandler E c r).w.body = "null".toList)) ∧
    ((ParserHandler E c r).calls = c.calls ++ [Call.ParseAddress q] ∧
      (ParserHandler E c r).w.status = some 200 ∧
      (ParserHandler E c r).w.sent.lookup "Content-Type" = some "application/json" ∧
      (ParserHandler E c r).w.body = json.MarshalComponents (E.ParseAddress q) ∧
      (∀ ps, E.ParseAddress q = some ps →
        reader.componentArray (ParserHandler E c r).w.body =
          some (ps.map (fun p => (utf8.ToValidText p.Label, utf8.ToValidText p.Value)))) ∧
      (∀ ts : List (Text × Text),
        E.ParseAddress q = some (ts.map (fun p => ⟨utf8.encode p.1, utf8.encode p.2⟩)) →
        reader.componentArray (ParserHandler E c r).w.body = some ts) ∧
      (∀ ps, E.ParseAddress q = some ps →
        (∀ p ∈ ps, utf8.Valid p.Label = true ∧ utf8.Valid p.Value = true) →
        ∃ ts, reader.componentArray (ParserHandler E c r).w.body = some ts ∧
          ts.map (fun p => (⟨utf8.encode p.1, utf8.encode p.2⟩ : ParsedComponent)) = ps) ∧
      (E.ParseAddress q = none → (ParserHandler E c r).w.body = "null".toList)) ∧
    (∀ t : Text, json.parse (queryDocument (utf8.encode t)) =
      some (json.Value.object [(json.queryName, json.Value.string (utf8.encode t))])) := by
  have hq : json.Unmarshal E r.Body ⟨[]⟩ = (⟨q⟩, false) :=
    Unmarshal_query E r.Body q _ hvalid hdoc
  have hE : ∀ data : Text,
      ((c.w.Set "Content-Type" "application/json").Write data).body = data := by
    intro data
    rw [(http.Set_Write c.w _ _ data hw).2.2, hb]
    rfl
  have hbe : (ExpandHandler E c r).w.body = json.MarshalStrings (E.ExpandAddress q) := by
    simp only [ExpandHandler, hq, hE]
  have hbp : (ParserHandler E c r).w.body = json.MarshalComponents (E.ParseAddress q) := by
    simp only [ParserHandler, hq, hE]
  refine ⟨⟨?_, (http.Set_Write c.w _ _ _ hw).1, (http.Set_Write c.w _ _ _ hw).2.1, hbe,
    fun xs hxs => ?_, fun ts hts => ?_, fun xs hxs hval => ?_, fun hn => ?_⟩,
    ⟨?_, (http.Set_Write c.w _ _ _ hw).1, (http.Set_Write c.w _ _ _ hw).2.1, hbp,
    fun ps hps => ?_, fun ts hts => ?_, fun ps hps hval => ?_, fun hn => ?_⟩, fun t => ?_⟩
  · simp only [ExpandHandler, hq]
  · rw [hbe, hxs]
    exact reader.stringArray_MarshalStrings xs
  · rw [hbe, hts, reader.stringArray_MarshalStrings, List.map_map]
    congr 1
    conv_rhs => rw [← List.map_id ts]
    exact List.map_congr_left (fun t _ => utf8.ToValidText_encode t)
  · refine ⟨xs.map utf8.ToValidText, ?_, ?_⟩
    · rw [hbe, hxs]
      exact reader.stringArray_MarshalStrings xs
    · rw [List.map_map]
      conv_rhs => rw [← List.map_id xs]
      exact List.map_congr_left (fun s hs => utf8.encode_ToValidText s (hval s hs))
  · rw [hbe, hn]
    rfl
  · simp only [ParserHandler, hq]
  · rw [hbp, hps]
    exact reader.componentArray_MarshalComponents ps
  · rw [hbp, hts, reader.componentArray_MarshalComponents, List.map_map]
    congr 1
    conv_rhs => rw [← List.map_id ts]
    exact List.map_congr_left (fun t _ => by
      simp only [Function.comp_apply, utf8.ToValidText_encode, id_eq])
  · refine ⟨ps.map (fun p => (utf8.ToValidText p.Label, utf8.ToValidText p.Value)), ?_, ?_⟩
    · rw [hbp, hps]
      exact reader.componentArray_MarshalComponents ps
    · rw [List.map_map]
      conv_rhs => rw [← List.map_id ps]
      exact List.map_congr_left (fun p hp => by
        simp only [Function.comp_apply, id_eq, utf8.encode_ToValidText _ (hval p hp).1,
          utf8.encode_ToValidText _ (hval p hp).2])
  · rw [hbp, hn]
    rfl
  · rw [json.parse_queryDocument, utf8.ToValidText_encode]

/-- Witness of the amended C8: the document `{"query":"781 Franklin Ave"}`
in the test environment, whose parse operation returns the house number and
then the road. -/
theorem handlers_emit_result_array_witness :
    Conn.fresh.w.status = none ∧ Conn.fresh.w.body = [] ∧
    stub.env.checkValid stub.document = true ∧
    json.parse stub.document =
      some (json.Value.object [(json.queryName, json.Value.string stub.query)]) ∧
    reader.componentArray (ParserHandler stub.env Conn.fresh
      (stub.request "POST" "/parser" stub.document)).w.body =
      some [("house_number".toList, "781".toList), ("road".toList, "franklin ave".toList)] :=
  ⟨rfl, rfl, by decide, rfl,
   (handlers_emit_result_array stub.env Conn.fresh
      (stub.request "POST" "/parser" stub.document) stub.query rfl rfl (by decide)
      rfl).2.1.2.2.2.2.2.1 _ (by decide)⟩

/-- C9, the code at the failing input: when the serve call comes back with
`http.ErrServerClosed`, the error of an intended shutdown, the goroutine
still passes it to `log.Fatal` and so ends the process with status 1, as for
any other error and with or without TLS. -/
theorem serveGoroutine_fatal_on_ErrServerClosed (certFile keyFile : String) (err : ServeError) :
    serveGoroutine certFile keyFile ServeError.ErrServerClosed = Outcome.exit 1 ∧
    serveGoroutine certFile keyFile err = Outcome.exit 1 := by
  have h : ∀ e, serveGoroutine certFile keyFile e = Outcome.exit 1 := by
    intro e
    unfold serveGoroutine
    split <;> rfl
  exact ⟨h _, h _⟩

end LibpostalRest
